import Mathlib

/-!
# MagicPhotos recolor editor

A shallow embedding of `src/QtCascades/MagicPhotos/src/recoloreditor.cpp`.

* The editor object is the record `RecolorEditor`; every member function is a
  function from the editor (and the answers of the outside world) to the new
  editor and the list of signals it emitted, in emission order.
* `QImage`, `QRect`, `QColor`, `QFileInfo` and `bb::ImageData` belong to Qt 4.8 and
  to the Cascades SDK.  The parts of them the editor calls are transcribed here
  from their documented behaviour.  `QColor` and the brush mask compute in
  floating point (`qreal`); here they are computed in exact arithmetic, which
  is noted at each definition.  The floating-point scaling of `openImage` is
  not computed here: the scaled side is the field `scaledSide` of `Config`.
* `recoloreditor.h` is not part of the sources.  Its constants are the fields of
  `Config`; its enumeration `Mode` and its unions `RGB16` and `HSV` are
  declared below.
* `int` arithmetic inside `QRect` and `RepaintImage`, and the pixel count of
  `openImage`, wrap to 32 bits (`wrap32`).  The brush coordinates of
  `changeImageAt` are mathematical integers.
-/

set_option autoImplicit false

namespace MagicPhotos

/-! ## Machine integers and loops -/

/-- Value held by a 32-bit two's-complement `int` after computing the
mathematical integer `n`. -/
def wrap32 (n : Int) : Int := (n + 2147483648) % 4294967296 - 2147483648

/-- Values taken by the counter of `for (int v = lo; v < hi; v++)`. -/
def forRange (lo hi : Int) : List Int :=
  (List.range (hi - lo).toNat).map (fun (k : Nat) => lo + (k : Int))

/-! ## `QRgb` -/

/-- A `QRgb` is an unsigned 32-bit value `0xAARRGGBB`. -/
abbrev QRgb := Nat

/-- Function `qRed(rgb)`, that is `(rgb >> 16) & 0xff`. -/
def qRed (rgb : QRgb) : Nat := rgb / 65536 % 256

/-- Function `qGreen(rgb)`, that is `(rgb >> 8) & 0xff`. -/
def qGreen (rgb : QRgb) : Nat := rgb / 256 % 256

/-- Function `qBlue(rgb)`, that is `rgb & 0xff`. -/
def qBlue (rgb : QRgb) : Nat := rgb % 256

/-- Function `qAlpha(rgb)`, that is `rgb >> 24` of a 32-bit value. -/
def qAlpha (rgb : QRgb) : Nat := rgb / 16777216 % 256

/-- Function `qRgba(r, g, b, a)`. -/
def qRgba (r g b a : Nat) : QRgb :=
  a % 256 * 16777216 + r % 256 * 65536 + g % 256 * 256 + b % 256

/-- Function `qRgb(r, g, b)`: alpha 255. -/
def qRgb (r g b : Nat) : QRgb := qRgba r g b 255

/-- Function `qConvertRgb16To32`: what `QImage::pixel` returns for a stored
`Format_RGB16` value; each channel is widened by repeating its top bits. -/
def qConvertRgb16To32 (c : Nat) : QRgb :=
  let r5 := c / 2048 % 32
  let g6 := c / 32 % 64
  let b5 := c % 32
  qRgba (r5 * 8 + r5 / 4) (g6 * 4 + g6 / 16) (b5 * 8 + b5 / 4) 255

/-- Function `qConvertRgb32To16`: what `QImage::setPixel` stores in a `Format_RGB16`
image, `((c >> 3) & 0x1f) | ((c >> 5) & 0x7e0) | ((c >> 8) & 0xf800)`. -/
def qConvertRgb32To16 (c : QRgb) : Nat :=
  c / 524288 % 32 * 2048 + c / 1024 % 64 * 32 + c / 8 % 32

/-! ## `QImage` -/

/-- A `QImage` of `Format_RGB16`, the only format the editor keeps (`openImage`
converts before storing).  `bits x y` is the 16-bit value at column `x` of scan
line `y`.  The null image has no pixels. -/
structure QImage where
  width : Nat
  height : Nat
  bits : Int → Int → Nat

namespace QImage

/-- The image `QImage()`. -/
def null : QImage := ⟨0, 0, fun _ _ => 0⟩

/-- Function `QImage::isNull`: an image with pixel data has positive width and height. -/
def isNull (img : QImage) : Bool := img.width == 0 || img.height == 0

/-- Function `QImage::valid(x, y)`. -/
def valid (img : QImage) (x y : Int) : Prop :=
  0 ≤ x ∧ x < img.width ∧ 0 ≤ y ∧ y < img.height

instance (img : QImage) (x y : Int) : Decidable (img.valid x y) := by
  unfold valid; infer_instance

/-- Function `QImage::pixel(x, y)`; out of range it warns and returns 12345. -/
def pixel (img : QImage) (x y : Int) : QRgb :=
  if img.valid x y then qConvertRgb16To32 (img.bits x y) else 12345

/-- Function `QImage::setPixel(x, y, rgb)`; out of range it warns and stores nothing. -/
def setPixel (img : QImage) (x y : Int) (rgb : QRgb) : QImage :=
  if img.valid x y then
    { img with bits := fun x' y' =>
        if x' = x ∧ y' = y then qConvertRgb32To16 rgb else img.bits x' y' }
  else img

end QImage

/-! ## `QRect` -/

/-- A `QRect` stores its two corners; width and height are derived. -/
structure QRect where
  x1 : Int
  y1 : Int
  x2 : Int
  y2 : Int
deriving DecidableEq, Repr

namespace QRect

/-- Constructor `QRect(x, y, width, height)`. -/
def ofSize (x y width height : Int) : QRect :=
  ⟨x, y, wrap32 (x + width - 1), wrap32 (y + height - 1)⟩

/-- Constructor `QRect()`, the default argument of `RepaintImage`. -/
def empty : QRect := ⟨0, 0, -1, -1⟩

/-- Function `QRect::x`. -/
def x (r : QRect) : Int := r.x1

/-- Function `QRect::y`. -/
def y (r : QRect) : Int := r.y1

/-- Function `QRect::width`, `x2 - x1 + 1`. -/
def width (r : QRect) : Int := wrap32 (r.x2 - r.x1 + 1)

/-- Function `QRect::height`, `y2 - y1 + 1`. -/
def height (r : QRect) : Int := wrap32 (r.y2 - r.y1 + 1)

/-- Function `QRect::setX` moves the left edge and keeps the right one. -/
def setX (r : QRect) (v : Int) : QRect := { r with x1 := v }

/-- Function `QRect::setY` moves the top edge and keeps the bottom one. -/
def setY (r : QRect) (v : Int) : QRect := { r with y1 := v }

/-- Function `QRect::setWidth`, `x2 = x1 + w - 1`. -/
def setWidth (r : QRect) (w : Int) : QRect := { r with x2 := wrap32 (r.x1 + w - 1) }

/-- Function `QRect::setHeight`, `y2 = y1 + h - 1`. -/
def setHeight (r : QRect) (h : Int) : QRect := { r with y2 := wrap32 (r.y1 + h - 1) }

end QRect

/-! ## `QColor` -/

/-- Function `qRound(n / d)` for a non-negative quotient: `int(n / d + 0.5)`. -/
def roundDiv (n d : Nat) : Nat := (2 * n + d) / (2 * d)

namespace QColor

/-- The 16-bit HSV components `QColor::toHsv` computes for a colour set with
`setRgb(qRgb(r, g, b))`.  Qt divides every 16-bit channel (`c * 0x101`) by
65535 and works in floating point; the quotients are formed exactly here, so
the two can differ only where a quotient falls on a rounding tie.  An
achromatic colour has hue `USHRT_MAX` and saturation 0. -/
structure Hsv16 where
  hue : Nat
  saturation : Nat
  value : Nat
deriving DecidableEq, Repr

/-- Function `QColor::toHsv` after `setRgb`. -/
def toHsv (r g b : Nat) : Hsv16 :=
  let mx := max r (max g b)
  let mn := min r (min g b)
  let delta := mx - mn
  if delta = 0 then
    { hue := 65535, saturation := 0, value := mx * 257 }
  else
    let sixths : Int :=
      if r = mx then (g : Int) - b
      else if g = mx then 2 * (delta : Int) + ((b : Int) - r)
      else 4 * (delta : Int) + ((r : Int) - g)
    let deg : Int := if 60 * sixths < 0 then 60 * sixths + 360 * delta else 60 * sixths
    { hue := roundDiv (deg * 100).toNat delta
      saturation := roundDiv (delta * 65535) mx
      value := mx * 257 }

/-- Function `QColor::hue` after `setRgb(qRgb(r, g, b))`. -/
def hue (r g b : Nat) : Int :=
  if (toHsv r g b).hue = 65535 then -1 else ((toHsv r g b).hue / 100 : Nat)

/-- Function `QColor::saturation` after `setRgb(qRgb(r, g, b))`. -/
def saturation (r g b : Nat) : Nat := (toHsv r g b).saturation / 256

/-- Function `QColor::value` after `setRgb(qRgb(r, g, b))`. -/
def value (r g b : Nat) : Nat := (toHsv r g b).value / 256

/-- Function `QColor::fromHsv(h, s, v, a).rgba()`.  Parameters out of range give the
invalid colour, whose `rgba()` is black with alpha 255.  Otherwise the components are
stored times `0x101` and converted by `QColor::toRgb`, whose floating-point
products `p`, `q`, `t` are formed exactly here before `qRound`. -/
def fromHsvRgba (h : Int) (s v a : Nat) : QRgb :=
  if ((h < 0 ∨ h ≥ 360) ∧ h ≠ -1) ∨ s > 255 ∨ v > 255 ∨ a > 255 then qRgba 0 0 0 255
  else
    let hue16 : Nat := if h = -1 then 65535 else (h % 360).toNat * 100
    let s16 := s * 257
    let v16 := v * 257
    if s16 = 0 ∨ hue16 = 65535 then qRgba (v16 / 256) (v16 / 256) (v16 / 256) (a * 257 / 256)
    else
      let i := hue16 / 6000
      let f := hue16 % 6000
      let p := roundDiv (v16 * (65535 - s16)) 65535
      let q := roundDiv (v16 * (65535 * 6000 - s16 * f)) (65535 * 6000)
      let t := roundDiv (v16 * (65535 * 6000 - s16 * (6000 - f))) (65535 * 6000)
      let a8 := a * 257 / 256
      match i with
      | 0 => qRgba (v16 / 256) (t / 256) (p / 256) a8
      | 1 => qRgba (q / 256) (v16 / 256) (p / 256) a8
      | 2 => qRgba (p / 256) (v16 / 256) (t / 256) a8
      | 3 => qRgba (p / 256) (q / 256) (v16 / 256) a8
      | 4 => qRgba (t / 256) (p / 256) (v16 / 256) a8
      | _ => qRgba (v16 / 256) (p / 256) (q / 256) a8

end QColor

/-! ## Declarations of `recoloreditor.h` -/

/-- Modelled from the spec: the enumerator `ModeScroll` of the enumeration
`Mode` in `recoloreditor.h`, which is not among the sources; the spec lists the
modes as Scroll, PaintOriginal, PaintEffected and C++ numbers them from 0. -/
def ModeScroll : Int := 0

/-- Modelled from the spec: the enumerator `ModeOriginal` of `Mode`
(PaintOriginal), the second of the three modes. -/
def ModeOriginal : Int := 1

/-- Modelled from the spec: the enumerator `ModeEffected` of `Mode`
(PaintEffected), the third of the three modes. -/
def ModeEffected : Int := 2

/-- Modelled from the spec: the union `RGB16` of `recoloreditor.h`, a 16-bit
word `rgb` overlaid with the bit fields `r` (5 bits), `g` (6 bits) and `b`
(5 bits).  The fields are kept; `rgb` is computed from them. -/
structure RGB16 where
  r : Nat
  g : Nat
  b : Nat
deriving DecidableEq, Repr

namespace RGB16

/-- Reading the member `rgb` after the bit fields were assigned (each
assignment truncates to the width of its field). -/
def rgb (c : RGB16) : Nat := c.r % 32 + c.g % 64 * 32 + c.b % 32 * 2048

/-- Reading the bit fields after `rgb16.rgb = i`. -/
def ofRgb (i : Nat) : RGB16 := ⟨i % 32, i / 32 % 64, i / 2048 % 32⟩

end RGB16

/-- Modelled from the spec: the union `HSV` of `recoloreditor.h`, a packed word
`hsv` overlaid with the fields `h`, `s` and `v`.  The table stores the word;
here it stores the three fields the word is made of. -/
structure HSV where
  h : Int
  s : Nat
  v : Nat
deriving DecidableEq, Repr

/-- The constants of `recoloreditor.h` and of the platform that the code
refers to. -/
structure Config where
  /-- Constant `UNDO_DEPTH`. -/
  UNDO_DEPTH : Nat
  /-- Value of `IMAGE_MPIX_LIMIT * 1000000.0`, a whole number of pixels. -/
  IMAGE_PIXEL_LIMIT : Nat
  /-- Result of `bytesPerLine()` of a `bb::ImageData` created with the given width. -/
  bytesPerLine : Nat → Nat
  /-- Value of `int(side / qSqrt(pixels / (IMAGE_MPIX_LIMIT * 1000000.0)))` for
  a side `side` and a pixel count `pixels`, as the floating point of the
  platform computes it: what `size.setWidth(size.width() / factor)` stores. -/
  scaledSide : Int → Int → Int

/-! ## `bb::ImageData` -/

/-- A `bb::ImageData` in `RGBA_Premultiplied` format: `pixels o` is the byte
at offset `o` from `pixels()`. -/
structure ImageData where
  width : Nat
  height : Nat
  bytesPerLine : Nat
  pixels : Int → Nat

namespace ImageData

/-- The data `bb::ImageData()`. -/
def null : ImageData := ⟨0, 0, 0, fun _ => 0⟩

/-- The data `bb::ImageData(RGBA_Premultiplied, width, height)`. -/
def create (cfg : Config) (width height : Nat) : ImageData :=
  ⟨width, height, cfg.bytesPerLine width, fun _ => 0⟩

end ImageData

/-- One execution of the body of the inner render loop: the coordinate passed
to `CurrentImage.pixel` and the offset of `dst` before its four stores. -/
structure Access where
  x : Int
  y : Int
  dst : Int
deriving DecidableEq, Repr

/-- The four stores `*dst++ = qRed(pixel); ... *dst++ = qAlpha(pixel);`. -/
def storePixel (buf : Int → Nat) (dst : Int) (pixel : QRgb) : Int → Nat :=
  fun o =>
    if o = dst then qRed pixel
    else if o = dst + 1 then qGreen pixel
    else if o = dst + 2 then qBlue pixel
    else if o = dst + 3 then qAlpha pixel
    else buf o

/-- The variables the render loops change: the write pointer (`dst` in the
inner loop, `dst_line` in the outer one), the buffer, and the record of the
accesses made. -/
structure RenderAcc where
  dst : Int
  pixels : Int → Nat
  log : List Access

/-- The inner loop of `RepaintImage` over the columns `xs` of line `y`,
entered with `dst` at `acc.dst`. -/
def renderRow (img : QImage) (y : Int) (xs : List Int) (acc : RenderAcc) : RenderAcc :=
  xs.foldl (fun a x =>
    { dst := a.dst + 4
      pixels := storePixel a.pixels a.dst (img.pixel x y)
      log := a.log ++ [⟨x, y, a.dst⟩] }) acc

/-- The outer loop of `RepaintImage` over the lines `ys`: each line starts
`colOffset` bytes after `dst_line`, which then advances by `stride`. -/
def renderRows (img : QImage) (stride colOffset : Int) (ys xs : List Int)
    (acc : RenderAcc) : RenderAcc :=
  ys.foldl (fun a y =>
    let row := renderRow img y xs { a with dst := a.dst + colOffset }
    { dst := a.dst + stride, pixels := row.pixels, log := row.log }) acc

/-- The six clamping statements of the partial branch of `RepaintImage`, for a
display buffer of width `w` and height `h`. -/
def clampRect (w h : Int) (rect : QRect) : QRect :=
  let rect := if rect.x ≥ w then rect.setX (wrap32 (w - 1)) else rect
  let rect := if rect.y ≥ h then rect.setY (wrap32 (h - 1)) else rect
  let rect := if rect.x < 0 then rect.setX 0 else rect
  let rect := if rect.y < 0 then rect.setY 0 else rect
  let rect := if wrap32 (rect.x + rect.width) > w then rect.setWidth (wrap32 (w - rect.x)) else rect
  let rect := if wrap32 (rect.y + rect.height) > h then rect.setHeight (wrap32 (h - rect.y)) else rect
  rect

/-- The partial branch of `RepaintImage`: clamp, then re-encode the pixels of
the rectangle.  Returns the loop variables at exit, the log included. -/
def renderPartial (img : QImage) (data : ImageData) (rect : QRect) : RenderAcc :=
  let rect := clampRect data.width data.height rect
  renderRows img data.bytesPerLine (rect.x * 4)
    (forRange rect.y (wrap32 (rect.y + rect.height)))
    (forRange rect.x (wrap32 (rect.x + rect.width)))
    { dst := rect.y * data.bytesPerLine, pixels := data.pixels, log := [] }

/-- The full branch of `RepaintImage`: a fresh buffer, every pixel encoded. -/
def renderFull (cfg : Config) (img : QImage) : RenderAcc :=
  let data := ImageData.create cfg img.width img.height
  renderRows img data.bytesPerLine 0
    (forRange 0 data.height) (forRange 0 data.width)
    { dst := 0, pixels := data.pixels, log := [] }

/-! ## The editor -/

/-- The signals of `RecolorEditor`.  The image carried by a repaint signal is
`CurrentImageData` (or the helper crop); only whether it is empty is kept. -/
inductive Signal where
  | imageOpened
  | imageOpenFailed
  | imageSaved
  | imageSaveFailed
  | undoAvailabilityChanged (available : Bool)
  | needImageRepaint (empty : Bool)
  | needHelperRepaint (empty : Bool)
deriving DecidableEq, Repr

/-- The data members of `RecolorEditor`. -/
structure RecolorEditor where
  IsChanged : Bool
  CurrentMode : Int
  CurrentHue : Int
  LoadedImage : QImage
  OriginalImage : QImage
  CurrentImage : QImage
  UndoStack : List QImage
  CurrentImageData : ImageData
  RGB16ToHSVMap : Nat → HSV

/-- The body of the constructor loop for index `i`: the HSV word stored at
`RGB16ToHSVMap[i]`. -/
def hsvOfIndex (i : Nat) : HSV :=
  let rgb16 := RGB16.ofRgb i
  let rgb := qRgb (rgb16.r * 8) (rgb16.g * 4) (rgb16.b * 8)
  { h := QColor.hue (qRed rgb) (qGreen rgb) (qBlue rgb)
    s := QColor.saturation (qRed rgb) (qGreen rgb) (qBlue rgb)
    v := QColor.value (qRed rgb) (qGreen rgb) (qBlue rgb) }

/-- The constructor loop `for (int i = 0; i < 65536; i++)` run on a table with
the contents `table`. -/
def fillMap (table : Nat → HSV) : Nat → HSV :=
  (List.range 65536).foldl (fun m i => fun j => if j = i then hsvOfIndex i else m j) table

/-! ## Files -/

/-- Class `QSize`. -/
structure QSize where
  width : Int
  height : Int
deriving DecidableEq, Repr

/-- What `QImageReader reader(image_file)` answers for one file.  The decoded
image has whatever format the file has; the editor tests it for null and
converts it, so the reader's answer is given as those two observations. -/
structure QImageReader where
  /-- Result of `reader.canRead()`. -/
  canRead : Bool
  /-- Result of `reader.size()`. -/
  size : QSize
  /-- Result of `reader.read().isNull()`, for the size given to `setScaledSize`, if any. -/
  readIsNull : Option QSize → Bool
  /-- Result of `reader.read().convertToFormat(QImage::Format_RGB16)`, for the size given
  to `setScaledSize`, if any. -/
  readRGB16 : Option QSize → QImage

/-- The size `openImage` passes to `reader.setScaledSize`, if it does. -/
def scaledSize (cfg : Config) (size : QSize) : Option QSize :=
  if wrap32 (size.width * size.height) > (cfg.IMAGE_PIXEL_LIMIT : Int) then
    some ⟨cfg.scaledSide size.width (wrap32 (size.width * size.height)),
          cfg.scaledSide size.height (wrap32 (size.width * size.height))⟩
  else none

/-- Function `QFileInfo(path).fileName()`: what follows the last `/`. -/
def fileName (path : String) : List Char :=
  (path.toList.reverse.takeWhile (fun c => c ≠ '/')).reverse

/-- Function `QFileInfo(path).suffix()`: what follows the last `.` of the file name,
empty when the file name has no `.`. -/
def suffix (path : String) : String :=
  if '.' ∈ fileName path then
    String.mk ((fileName path).reverse.takeWhile (fun c => c ≠ '.')).reverse
  else ""

/-- Result of `a.compare(b, Qt::CaseInsensitive) != 0`. -/
def compareNonZero (a b : String) : Bool :=
  a.toList.map Char.toLower != b.toList.map Char.toLower

/-- The value of `file_name` when `saveImage` calls `save`. -/
def saveFileName (image_file : String) : String :=
  if compareNonZero (suffix image_file) "png" &&
     compareNonZero (suffix image_file) "jpg" &&
     compareNonZero (suffix image_file) "bmp" then
    image_file ++ ".jpg"
  else image_file

/-- What one call of `saveImage` does: the new editor, the signals, and the
file name `save` was called with, if it was called. -/
structure SaveOutcome where
  editor : RecolorEditor
  signals : List Signal
  savedAs : Option String

namespace RecolorEditor

/-- Constructor `RecolorEditor::RecolorEditor()`. -/
def new : RecolorEditor :=
  { IsChanged := false
    CurrentMode := ModeScroll
    CurrentHue := 0
    LoadedImage := QImage.null
    OriginalImage := QImage.null
    CurrentImage := QImage.null
    UndoStack := []
    CurrentImageData := ImageData.null
    RGB16ToHSVMap := fillMap (fun _ => ⟨0, 0, 0⟩) }

/-- Member function `RecolorEditor::mode`. -/
def mode (e : RecolorEditor) : Int := e.CurrentMode

/-- Member function `RecolorEditor::setMode`. -/
def setMode (e : RecolorEditor) (mode : Int) : RecolorEditor := { e with CurrentMode := mode }

/-- Member function `RecolorEditor::hue`. -/
def hue (e : RecolorEditor) : Int := e.CurrentHue

/-- Member function `RecolorEditor::setHue`. -/
def setHue (e : RecolorEditor) (hue : Int) : RecolorEditor := { e with CurrentHue := hue }

/-- Member function `RecolorEditor::changed`. -/
def changed (e : RecolorEditor) : Bool := e.IsChanged

/-- Member function `RecolorEditor::RepaintImage(full, rect)`. -/
def RepaintImage (cfg : Config) (e : RecolorEditor) ( full : Bool) (rect : QRect) :
    RecolorEditor × List Signal :=
  if e.CurrentImage.isNull then
    ({ e with CurrentImageData := ImageData.null }, [Signal.needImageRepaint true])
  else if full then
    ({ e with CurrentImageData :=
        { ImageData.create cfg e.CurrentImage.width e.CurrentImage.height with
          pixels := (renderFull cfg e.CurrentImage).pixels } },
      [Signal.needImageRepaint false])
  else
    ({ e with CurrentImageData :=
        { e.CurrentImageData with
          pixels := (renderPartial e.CurrentImage e.CurrentImageData rect).pixels } },
      [Signal.needImageRepaint false])

/-- Member function `RecolorEditor::RepaintHelper`: it changes no member and emits
`needHelperRepaint` with the scaled crop around the cursor, or with an empty
image when there is no current image. -/
def RepaintHelper (e : RecolorEditor) : List Signal :=
  if e.CurrentImage.isNull then [Signal.needHelperRepaint true]
  else [Signal.needHelperRepaint false]

/-- The eviction loop of `SaveUndoImage`,
`for (int i = 0; i < UndoStack.size() - UNDO_DEPTH; i++) UndoStack.remove(0);`
entered with counter `i`: the bound is read again on every pass. -/
def evict (depth : Nat) : Nat → List QImage → List QImage
  | _, [] => []
  | i, img :: rest =>
    if i + depth < (img :: rest).length then evict depth (i + 1) rest else img :: rest

/-- Member function `RecolorEditor::SaveUndoImage`. -/
def SaveUndoImage (cfg : Config) (e : RecolorEditor) : RecolorEditor × List Signal :=
  let stack := e.UndoStack ++ [e.CurrentImage]
  let stack := if stack.length > cfg.UNDO_DEPTH then evict cfg.UNDO_DEPTH 0 stack else stack
  ({ e with UndoStack := stack }, [Signal.undoAvailabilityChanged true])

/-- Member function `RecolorEditor::undo`. -/
def undo (cfg : Config) (e : RecolorEditor) : RecolorEditor × List Signal :=
  if e.UndoStack.length > 0 then
    let e1 := { e with
      CurrentImage := e.UndoStack.getLastD QImage.null
      UndoStack := e.UndoStack.dropLast }
    let sig1 := if e1.UndoStack.length = 0 then [Signal.undoAvailabilityChanged false] else []
    let e2 := { e1 with IsChanged := true }
    let r := RepaintImage cfg e2 true QRect.empty
    (r.1, sig1 ++ r.2)
  else (e, [])

/-- Member function `RecolorEditor::AdjustHue`. -/
def AdjustHue (e : RecolorEditor) (rgb : QRgb) : QRgb :=
  let rgb16 : RGB16 := ⟨qRed rgb / 8 % 32, qGreen rgb / 4 % 64, qBlue rgb / 8 % 32⟩
  let hsv := e.RGB16ToHSVMap rgb16.rgb
  QColor.fromHsvRgba e.CurrentHue hsv.s hsv.v (qAlpha rgb)

/-- The test `qSqrt(qPow(dx, 2) + qPow(dy, 2)) <= radius` of the brush loop:
the square root of an integer is at most the integer `radius` exactly when
`radius` is not negative and the integer is at most its square.  Floating
point decides the test the same way for every radius a brush can have (below
2896 in single precision). -/
def withinRadius (dx dy radius : Int) : Prop :=
  0 ≤ radius ∧ dx * dx + dy * dy ≤ radius * radius

instance (dx dy radius : Int) : Decidable (withinRadius dx dy radius) := by
  unfold withinRadius; infer_instance

/-- The body of the two brush loops of `changeImageAt` at `(x, y)`, acting on
the current image `img`. -/
def brushAt (e : RecolorEditor) (center_x center_y radius : Int) (img : QImage) (x y : Int) :
    QImage :=
  if x ≥ 0 ∧ x < img.width ∧ y ≥ 0 ∧ y < img.height ∧
      withinRadius (x - center_x) (y - center_y) radius then
    if e.CurrentMode = ModeOriginal then
      img.setPixel x y (e.OriginalImage.pixel x y)
    else if e.CurrentMode = ModeEffected then
      img.setPixel x y (AdjustHue e (e.OriginalImage.pixel x y))
    else img
  else img

/-- The two brush loops of `changeImageAt`. -/
def brush (e : RecolorEditor) (center_x center_y radius : Int) (img : QImage) : QImage :=
  (forRange (center_x - radius) (center_x + radius + 1)).foldl (fun img x =>
    (forRange (center_y - radius) (center_y + radius + 1)).foldl (fun img y =>
      brushAt e center_x center_y radius img x y) img) img

/-- Member function `RecolorEditor::changeImageAt(save_undo, center_x, center_y, zoom_level)`.
The argument `radius` is the value of `int radius = BRUSH_SIZE / zoom_level`,
the only use of `zoom_level` besides the helper crop. -/
def changeImageAt (cfg : Config) (e : RecolorEditor) (save_undo : Bool)
    (center_x center_y radius : Int) : RecolorEditor × List Signal :=
  if e.CurrentMode ≠ ModeScroll then
    let r1 := if save_undo then SaveUndoImage cfg e else (e, [])
    let e2 := { r1.1 with
      CurrentImage := brush r1.1 center_x center_y radius r1.1.CurrentImage
      IsChanged := true }
    let r3 := RepaintImage cfg e2 false
      (QRect.ofSize (center_x - radius) (center_y - radius) (radius * 2) (radius * 2))
    (r3.1, r1.2 ++ r3.2 ++ RepaintHelper r3.1)
  else (e, [])

/-- Member function `RecolorEditor::openImage`, given the reader for `image_file`. -/
def openImage (cfg : Config) (e : RecolorEditor) (reader : QImageReader) :
    RecolorEditor × List Signal :=
  if reader.canRead then
    let scaled := scaledSize cfg reader.size
    if !reader.readIsNull scaled then
      let loaded := reader.readRGB16 scaled
      if !loaded.isNull then
        let e1 := { e with
          OriginalImage := loaded
          CurrentImage := loaded
          LoadedImage := QImage.null
          UndoStack := []
          IsChanged := true }
        let r := RepaintImage cfg e1 true QRect.empty
        (r.1, r.2 ++ [Signal.undoAvailabilityChanged false, Signal.imageOpened])
      else ({ e with LoadedImage := loaded }, [Signal.imageOpenFailed])
    else ({ e with LoadedImage := QImage.null }, [Signal.imageOpenFailed])
  else (e, [Signal.imageOpenFailed])

/-- Member function `RecolorEditor::saveImage`; `save name img` is the result of
`img.convertToFormat(QImage::Format_ARGB32).save(name)`. -/
def saveImage (save : String → QImage → Bool) (e : RecolorEditor) (image_file : String) :
    SaveOutcome :=
  if !e.CurrentImage.isNull then
    let file_name := saveFileName image_file
    if save file_name e.CurrentImage then
      ⟨{ e with IsChanged := false }, [Signal.imageSaved], some file_name⟩
    else ⟨e, [Signal.imageSaveFailed], some file_name⟩
  else ⟨e, [Signal.imageSaveFailed], none⟩

end RecolorEditor

/-! ## Drivers and sample data used to state the properties -/

/-- One step of a history of checkpoints and undos.  Between two checkpoints
the brush may have changed the current image, so a checkpoint carries the
image that is current when `SaveUndoImage` runs. -/
inductive HistoryStep where
  | checkpoint (current : QImage)
  | undo

/-- Run a sequence of checkpoints and undos. -/
def runHistory (cfg : Config) : RecolorEditor → List HistoryStep → RecolorEditor
  | e, [] => e
  | e, HistoryStep.checkpoint img :: rest =>
    runHistory cfg (RecolorEditor.SaveUndoImage cfg { e with CurrentImage := img }).1 rest
  | e, HistoryStep.undo :: rest => runHistory cfg (RecolorEditor.undo cfg e).1 rest

/-- The value the brush stores at `(x, y)` in a paint mode. -/
def brushValue (e : RecolorEditor) (x y : Int) : Nat :=
  if e.CurrentMode = ModeOriginal then qConvertRgb32To16 (e.OriginalImage.pixel x y)
  else qConvertRgb32To16 (RecolorEditor.AdjustHue e (e.OriginalImage.pixel x y))

/-- The pixels the brush stores to: inside the image, inside the disc, in a
paint mode. -/
def brushHits (e : RecolorEditor) (center_x center_y radius : Int) (img : QImage)
    (x y : Int) : Prop :=
  img.valid x y ∧ RecolorEditor.withinRadius (x - center_x) (y - center_y) radius ∧
    (e.CurrentMode = ModeOriginal ∨ e.CurrentMode = ModeEffected)

instance (e : RecolorEditor) (center_x center_y radius : Int) (img : QImage) (x y : Int) :
    Decidable (brushHits e center_x center_y radius img x y) := by
  unfold brushHits; infer_instance

/-- A configuration for the examples: two undo levels, a ceiling of five
megapixels, display lines without padding.  No example asks for a scaled
size, so `scaledSide` is never consulted; it is set to 0. -/
def sampleConfig : Config :=
  { UNDO_DEPTH := 2
    IMAGE_PIXEL_LIMIT := 5000000
    bytesPerLine := fun w => 4 * w
    scaledSide := fun _ _ => 0 }

/-- An image of one colour. -/
def plainImage (width height value : Nat) : QImage := ⟨width, height, fun _ _ => value⟩

/-- An editor in mode `ModeOriginal` whose 3 × 3 current image (black) differs
everywhere from its original image (white). -/
def repaintedSample : RecolorEditor :=
  { RecolorEditor.new with
    CurrentMode := ModeOriginal
    OriginalImage := plainImage 3 3 65535
    CurrentImage := plainImage 3 3 0 }

/-- A freshly constructed editor whose target hue was set to 120. -/
def hue120Sample : RecolorEditor := RecolorEditor.setHue RecolorEditor.new 120

/-- The display buffer `data` holds the four bytes of pixel `(x, y)` of `img`
at the place of that pixel. -/
def encodesAt (data : ImageData) (img : QImage) (x y : Int) : Prop :=
  data.pixels (y * data.bytesPerLine + 4 * x) = qRed (img.pixel x y) ∧
  data.pixels (y * data.bytesPerLine + 4 * x + 1) = qGreen (img.pixel x y) ∧
  data.pixels (y * data.bytesPerLine + 4 * x + 2) = qBlue (img.pixel x y) ∧
  data.pixels (y * data.bytesPerLine + 4 * x + 3) = qAlpha (img.pixel x y)

instance (data : ImageData) (img : QImage) (x y : Int) : Decidable (encodesAt data img x y) := by
  unfold encodesAt; infer_instance

/-- The display buffer `data` encodes `img`: same size, and every pixel of
`img` at its place. -/
def encodes (data : ImageData) (img : QImage) : Prop :=
  data.width = img.width ∧ data.height = img.height ∧
    ∀ x y : Int, img.valid x y → encodesAt data img x y

/-- A reader for a file holding a white image of 3 × 3 pixels. -/
def whiteReader : QImageReader :=
  ⟨true, ⟨3, 3⟩, fun _ => false, fun _ => plainImage 3 3 65535⟩

/-- The editor after construction, `openImage` of the white 3 × 3 image and
`setMode(ModeEffected)`; the hue is still 0. -/
def strokeSample : RecolorEditor :=
  RecolorEditor.setMode (RecolorEditor.openImage sampleConfig RecolorEditor.new whiteReader).1
    ModeEffected

/-- A reader for a file whose header announces 50000 × 50000 pixels and which
decodes at the scaled size when one was set, at full size otherwise. -/
def hugeReader : QImageReader :=
  { canRead := true
    size := ⟨50000, 50000⟩
    readIsNull := fun _ => false
    readRGB16 := fun scaled =>
      match scaled with
      | none => plainImage 50000 50000 0
      | some size => plainImage size.width.toNat size.height.toNat 0 }

/-- A call of one of the public member functions that change the editor,
with the answers of the outside world it meets. -/
inductive EditorCall where
  | setMode (mode : Int)
  | setHue (hue : Int)
  | openImage (reader : QImageReader)
  | saveImage (save : String → QImage → Bool) (image_file : String)
  | changeImageAt (save_undo : Bool) (center_x center_y radius : Int)
  | undo

/-- The editor after one call. -/
def call (cfg : Config) (e : RecolorEditor) : EditorCall → RecolorEditor
  | EditorCall.setMode mode => e.setMode mode
  | EditorCall.setHue hue => e.setHue hue
  | EditorCall.openImage reader => (e.openImage cfg reader).1
  | EditorCall.saveImage save image_file => (e.saveImage save image_file).editor
  | EditorCall.changeImageAt save_undo center_x center_y radius =>
    (e.changeImageAt cfg save_undo center_x center_y radius).1
  | EditorCall.undo => (e.undo cfg).1

/-- The editor after a sequence of calls. -/
def runCalls (cfg : Config) (e : RecolorEditor) (calls : List EditorCall) : RecolorEditor :=
  calls.foldl (call cfg) e

/-- What holds of the editor between any two calls. -/
structure Consistent (cfg : Config) (e : RecolorEditor) : Prop where
  original_width : e.OriginalImage.width = e.CurrentImage.width
  original_height : e.OriginalImage.height = e.CurrentImage.height
  current_null : e.CurrentImage.width = 0 ↔ e.CurrentImage.height = 0
  undo_sizes : ∀ img ∈ e.UndoStack,
    img.width = e.CurrentImage.width ∧ img.height = e.CurrentImage.height
  undo_depth : e.UndoStack.length ≤ cfg.UNDO_DEPTH
  table : e.RGB16ToHSVMap = RecolorEditor.new.RGB16ToHSVMap
  display_width : e.CurrentImageData.width = e.CurrentImage.width
  display_height : e.CurrentImageData.height = e.CurrentImage.height
  display_stride : e.CurrentImage.isNull = false →
    e.CurrentImageData.bytesPerLine = cfg.bytesPerLine e.CurrentImage.width
  loaded_null : e.LoadedImage.isNull = true

open RecolorEditor

/-! ## Frame lemmas for `RepaintImage` -/

theorem RepaintImage_fields (cfg : Config) (e : RecolorEditor) (full : Bool) (rect : QRect) :
    (RepaintImage cfg e full rect).1.IsChanged = e.IsChanged ∧
    (RepaintImage cfg e full rect).1.CurrentMode = e.CurrentMode ∧
    (RepaintImage cfg e full rect).1.CurrentHue = e.CurrentHue ∧
    (RepaintImage cfg e full rect).1.LoadedImage = e.LoadedImage ∧
    (RepaintImage cfg e full rect).1.OriginalImage = e.OriginalImage ∧
    (RepaintImage cfg e full rect).1.CurrentImage = e.CurrentImage ∧
    (RepaintImage cfg e full rect).1.UndoStack = e.UndoStack ∧
    (RepaintImage cfg e full rect).1.RGB16ToHSVMap = e.RGB16ToHSVMap := by
  unfold RepaintImage
  split
  · simp
  · split <;> simp

theorem RepaintImage_signals (cfg : Config) (e : RecolorEditor) (full : Bool) (rect : QRect) :
    (RepaintImage cfg e full rect).2 = [Signal.needImageRepaint e.CurrentImage.isNull] := by
  unfold RepaintImage
  split
  · next h => simp [h]
  · next h => split <;> simp [h]

/-! ## The undo history -/

theorem evict_overflow_by_one (depth : Nat) (l : List QImage) (h : l.length = depth + 1) :
    evict depth 0 l = l.drop 1 := by
  cases l with
  | nil => simp at h
  | cons a rest =>
    simp only [List.length_cons, Nat.add_right_cancel_iff] at h
    cases rest with
    | nil =>
      simp only [List.length_nil] at h
      simp [evict, ← h]
    | cons b rest2 =>
      simp only [List.length_cons] at h
      simp [evict, ← h]

theorem SaveUndoImage_stack (cfg : Config) (e : RecolorEditor)
    (h : e.UndoStack.length ≤ cfg.UNDO_DEPTH) :
    (SaveUndoImage cfg e).1.UndoStack =
      (e.UndoStack ++ [e.CurrentImage]).drop (e.UndoStack.length + 1 - cfg.UNDO_DEPTH) := by
  unfold SaveUndoImage
  simp only [List.length_append, List.length_singleton]
  by_cases hlt : e.UndoStack.length + 1 > cfg.UNDO_DEPTH
  · have hlen : (e.UndoStack ++ [e.CurrentImage]).length = cfg.UNDO_DEPTH + 1 := by
      simp; omega
    have hk : e.UndoStack.length + 1 - cfg.UNDO_DEPTH = 1 := by omega
    simp only [hlt, if_true, hk]
    exact evict_overflow_by_one _ _ hlen
  · have hk : e.UndoStack.length + 1 - cfg.UNDO_DEPTH = 0 := by omega
    simp [hlt, hk]

theorem SaveUndoImage_length_le (cfg : Config) (e : RecolorEditor)
    (h : e.UndoStack.length ≤ cfg.UNDO_DEPTH) :
    (SaveUndoImage cfg e).1.UndoStack.length ≤ cfg.UNDO_DEPTH := by
  rw [SaveUndoImage_stack cfg e h]
  simp
  omega

theorem undo_stack (cfg : Config) (e : RecolorEditor) :
    (undo cfg e).1.UndoStack = e.UndoStack.dropLast := by
  unfold undo
  split
  · simp [(RepaintImage_fields cfg _ true QRect.empty).2.2.2.2.2.2.1]
  · next h =>
    have : e.UndoStack = [] := by
      cases hs : e.UndoStack with
      | nil => rfl
      | cons a l => simp [hs] at h
    simp [this]

theorem runHistory_length_le (cfg : Config) (steps : List HistoryStep) :
    ∀ e : RecolorEditor, e.UndoStack.length ≤ cfg.UNDO_DEPTH →
      (runHistory cfg e steps).UndoStack.length ≤ cfg.UNDO_DEPTH := by
  induction steps with
  | nil => intro e h; simpa [runHistory] using h
  | cons st rest ih =>
    intro e h
    cases st with
    | checkpoint img =>
      simp only [runHistory]
      exact ih _ (SaveUndoImage_length_le cfg _ h)
    | undo =>
      simp only [runHistory]
      apply ih
      rw [undo_stack]
      simp
      omega

theorem runHistory_checkpoints (cfg : Config) (snaps : List QImage) :
    ∀ e : RecolorEditor, e.UndoStack.length ≤ cfg.UNDO_DEPTH →
      (runHistory cfg e (snaps.map HistoryStep.checkpoint)).UndoStack =
        (e.UndoStack ++ snaps).drop (e.UndoStack.length + snaps.length - cfg.UNDO_DEPTH) := by
  induction snaps with
  | nil =>
    intro e h
    have : e.UndoStack.length - cfg.UNDO_DEPTH = 0 := by omega
    simp [runHistory, this]
  | cons c rest ih =>
    intro e h
    simp only [List.map_cons, runHistory]
    have h1 := SaveUndoImage_length_le cfg { e with CurrentImage := c } h
    have h2 := SaveUndoImage_stack cfg { e with CurrentImage := c } h
    simp only at h2
    have hk : e.UndoStack.length + 1 - cfg.UNDO_DEPTH ≤ (e.UndoStack ++ [c]).length := by
      simp
    have hlen : (SaveUndoImage cfg { e with CurrentImage := c }).1.UndoStack.length =
        e.UndoStack.length + 1 - (e.UndoStack.length + 1 - cfg.UNDO_DEPTH) := by
      rw [h2]; simp
    rw [ih _ h1, hlen, h2, ← List.drop_append_of_le_length hk, List.drop_drop]
    simp only [List.append_assoc, List.singleton_append, List.length_cons]
    congr 1
    omega

/-! ## The 16-bit pixel format -/

theorem qConvertRgb32To16_qRgba (r g b a : Nat) (hr : r < 256) (hg : g < 256) (hb : b < 256)
    (_ha : a < 256) : qConvertRgb32To16 (qRgba r g b a) = r / 8 * 2048 + g / 4 * 32 + b / 8 := by
  unfold qConvertRgb32To16 qRgba
  omega

theorem qConvertRgb16_roundtrip (c : Nat) :
    qConvertRgb32To16 (qConvertRgb16To32 c) = c % 65536 := by
  unfold qConvertRgb16To32
  simp only
  rw [qConvertRgb32To16_qRgba _ _ _ _ (by omega) (by omega) (by omega) (by omega)]
  have hc : c % 65536 = c / 2048 % 32 * 2048 + c / 32 % 64 * 32 + c % 32 := by omega
  have hr : c / 2048 % 32 < 32 := Nat.mod_lt _ (by norm_num)
  have hg : c / 32 % 64 < 64 := Nat.mod_lt _ (by norm_num)
  have hb : c % 32 < 32 := Nat.mod_lt _ (by norm_num)
  rw [hc]
  clear hc
  generalize c / 2048 % 32 = r5 at hr ⊢
  generalize c / 32 % 64 = g6 at hg ⊢
  generalize c % 32 = b5 at hb ⊢
  have h1 : (r5 * 8 + r5 / 4) / 8 = r5 := by omega
  have h2 : (g6 * 4 + g6 / 16) / 4 = g6 := by omega
  have h3 : (b5 * 8 + b5 / 4) / 8 = b5 := by omega
  rw [h1, h2, h3]

theorem qConvertRgb16To32_mod (c : Nat) :
    qConvertRgb16To32 (c % 65536) = qConvertRgb16To32 c := by
  unfold qConvertRgb16To32
  have h1 : c % 65536 / 2048 % 32 = c / 2048 % 32 := by omega
  have h2 : c % 65536 / 32 % 64 = c / 32 % 64 := by omega
  have h3 : c % 65536 % 32 = c % 32 := by omega
  simp only [h1, h2, h3]

theorem qConvertRgb16To32_stable (c : Nat) :
    qConvertRgb16To32 (qConvertRgb32To16 (qConvertRgb16To32 c)) = qConvertRgb16To32 c := by
  rw [qConvertRgb16_roundtrip, qConvertRgb16To32_mod]

/-! ## The brush loops -/

theorem brushAt_spec (e : RecolorEditor) (cx cy radius : Int) (img : QImage) (x y : Int) :
    (brushAt e cx cy radius img x y).width = img.width ∧
    (brushAt e cx cy radius img x y).height = img.height ∧
    ∀ x' y', (brushAt e cx cy radius img x y).bits x' y' =
      if (x' = x ∧ y' = y) ∧ brushHits e cx cy radius img x y then brushValue e x y
      else img.bits x' y' := by
  unfold brushAt brushHits brushValue QImage.setPixel QImage.valid
  by_cases hv : x ≥ 0 ∧ x < img.width ∧ y ≥ 0 ∧ y < img.height ∧
      withinRadius (x - cx) (y - cy) radius
  · have hv' : 0 ≤ x ∧ x < img.width ∧ 0 ≤ y ∧ y < img.height := ⟨hv.1, hv.2.1, hv.2.2.1, hv.2.2.2.1⟩
    have hw := hv.2.2.2.2
    by_cases h1 : e.CurrentMode = ModeOriginal
    · simp only [hv, hv', hw, h1, if_true, true_and, and_true, true_or]
      exact fun _ _ => trivial
    · by_cases h2 : e.CurrentMode = ModeEffected
      · simp only [hv, hv', hw, h1, h2, if_true, if_false, true_and, and_true, or_true]
        have hne : ¬ (ModeEffected = ModeOriginal) := by decide
        simp only [hne, if_false]
        exact ⟨trivial, trivial, fun _ _ => trivial⟩
      · simp [hv, h1, h2]
  · have : ¬ ((0 ≤ x ∧ x < img.width ∧ 0 ≤ y ∧ y < img.height) ∧
        withinRadius (x - cx) (y - cy) radius ∧
        (e.CurrentMode = ModeOriginal ∨ e.CurrentMode = ModeEffected)) := by
      intro h; exact hv ⟨h.1.1, h.1.2.1, h.1.2.2.1, h.1.2.2.2, h.2.1⟩
    simp [hv, this]

theorem foldl_nested_eq_pairs {α : Type} (f : α → Int → Int → α) (xs ys : List Int) :
    ∀ a : α, xs.foldl (fun acc x => ys.foldl (fun acc y => f acc x y) acc) a =
      (xs.flatMap (fun x => ys.map (fun y => (x, y)))).foldl (fun acc p => f acc p.1 p.2) a := by
  induction xs with
  | nil => intro a; rfl
  | cons x rest ih =>
    intro a
    simp only [List.foldl_cons, List.flatMap_cons, List.foldl_append, List.foldl_map]
    exact ih _

theorem brush_points_spec (e : RecolorEditor) (cx cy radius : Int) (pts : List (Int × Int)) :
    ∀ img : QImage,
      (pts.foldl (fun acc p => brushAt e cx cy radius acc p.1 p.2) img).width = img.width ∧
      (pts.foldl (fun acc p => brushAt e cx cy radius acc p.1 p.2) img).height = img.height ∧
      ∀ x y, (pts.foldl (fun acc p => brushAt e cx cy radius acc p.1 p.2) img).bits x y =
        if (x, y) ∈ pts ∧ brushHits e cx cy radius img x y then brushValue e x y
        else img.bits x y := by
  induction pts with
  | nil => intro img; simp
  | cons p rest ih =>
    intro img
    obtain ⟨hw, hh, hb⟩ := brushAt_spec e cx cy radius img p.1 p.2
    obtain ⟨iw, ih', ib⟩ := ih (brushAt e cx cy radius img p.1 p.2)
    simp only [List.foldl_cons]
    refine ⟨by rw [iw, hw], by rw [ih', hh], ?_⟩
    intro x y
    rw [ib x y, hb x y]
    have hhits : brushHits e cx cy radius (brushAt e cx cy radius img p.1 p.2) x y ↔
        brushHits e cx cy radius img x y := by
      unfold brushHits QImage.valid
      rw [hw, hh]
    have hhits2 : (x = p.1 ∧ y = p.2) → (brushHits e cx cy radius img p.1 p.2 ↔
        brushHits e cx cy radius img x y) := by
      rintro ⟨rfl, rfl⟩; rfl
    by_cases hin : (x, y) ∈ rest
    · by_cases hH : brushHits e cx cy radius img x y
      · simp [hin, hH, hhits]
      · by_cases hp : x = p.1 ∧ y = p.2
        · have := (hhits2 hp).not.mpr hH
          simp [hin, hH, hhits, this]
        · simp [hin, hH, hhits, hp]
    · by_cases hp : x = p.1 ∧ y = p.2
      · have hxy : (x, y) = p := by
          obtain ⟨h1, h2⟩ := hp
          exact Prod.ext h1 h2
        by_cases hH : brushHits e cx cy radius img x y
        · have := (hhits2 hp).mpr hH
          simp [hin, hH, hp, hxy, this]
        · have := (hhits2 hp).not.mpr hH
          simp [hin, hH, hhits, this]
      · have hxy : ¬ (x, y) = p := by
          intro h; apply hp; rw [← h]; exact ⟨rfl, rfl⟩
        simp [hin, hp, hxy, hhits]

theorem mem_forRange (lo hi v : Int) : v ∈ forRange lo hi ↔ lo ≤ v ∧ v < hi := by
  unfold forRange
  simp only [List.mem_map, List.mem_range]
  constructor
  · rintro ⟨k, hk, rfl⟩
    omega
  · intro h
    refine ⟨(v - lo).toNat, ?_, ?_⟩ <;> omega

theorem brush_spec (e : RecolorEditor) (cx cy radius : Int) (img : QImage) :
    (brush e cx cy radius img).width = img.width ∧
    (brush e cx cy radius img).height = img.height ∧
    ∀ x y, (brush e cx cy radius img).bits x y =
      if brushHits e cx cy radius img x y then brushValue e x y else img.bits x y := by
  unfold brush
  rw [foldl_nested_eq_pairs (fun acc x y => brushAt e cx cy radius acc x y)]
  obtain ⟨hw, hh, hb⟩ := brush_points_spec e cx cy radius
    ((forRange (cx - radius) (cx + radius + 1)).flatMap
      (fun x => (forRange (cy - radius) (cy + radius + 1)).map (fun y => (x, y)))) img
  refine ⟨hw, hh, ?_⟩
  intro x y
  rw [hb x y]
  by_cases hH : brushHits e cx cy radius img x y
  · have hmem : (x, y) ∈ (forRange (cx - radius) (cx + radius + 1)).flatMap
        (fun x => (forRange (cy - radius) (cy + radius + 1)).map (fun y => (x, y))) := by
      simp only [List.mem_flatMap, List.mem_map, Prod.mk.injEq, mem_forRange]
      obtain ⟨_, ⟨hr, hd⟩, _⟩ := hH
      refine ⟨x, ⟨?_, ?_⟩, y, ⟨?_, ?_⟩, rfl, rfl⟩ <;> nlinarith
    simp [hmem, hH]
  · simp [hH]

/-- C3: starting from an empty undo history, after any sequence of checkpoints
(`SaveUndoImage`) and `undo` calls the history holds at most `UNDO_DEPTH`
snapshots; and when more than `UNDO_DEPTH` checkpoints follow one another
without an undo, the history holds exactly `UNDO_DEPTH` snapshots, namely the
`UNDO_DEPTH` most recently pushed ones in push order. -/
theorem undo_history_capped (cfg : Config) (e : RecolorEditor) (hempty : e.UndoStack = []) :
    (∀ steps : List HistoryStep,
      (runHistory cfg e steps).UndoStack.length ≤ cfg.UNDO_DEPTH) ∧
    (∀ (steps : List HistoryStep) (snaps : List QImage), cfg.UNDO_DEPTH < snaps.length →
      (runHistory cfg (runHistory cfg e steps)
          (snaps.map HistoryStep.checkpoint)).UndoStack.length = cfg.UNDO_DEPTH ∧
      (runHistory cfg (runHistory cfg e steps) (snaps.map HistoryStep.checkpoint)).UndoStack =
        snaps.drop (snaps.length - cfg.UNDO_DEPTH)) := by
  have h0 : e.UndoStack.length ≤ cfg.UNDO_DEPTH := by simp [hempty]
  refine ⟨fun steps => runHistory_length_le cfg steps e h0, ?_⟩
  intro steps snaps hN
  have h1 := runHistory_length_le cfg steps e h0
  have h2 := runHistory_checkpoints cfg snaps (runHistory cfg e steps) h1
  have h3 : (runHistory cfg (runHistory cfg e steps)
      (snaps.map HistoryStep.checkpoint)).UndoStack =
        snaps.drop (snaps.length - cfg.UNDO_DEPTH) := by
    rw [h2, List.drop_append_eq_append_drop]
    have ha : (runHistory cfg e steps).UndoStack.length + snaps.length - cfg.UNDO_DEPTH
        - (runHistory cfg e steps).UndoStack.length = snaps.length - cfg.UNDO_DEPTH := by omega
    rw [ha, List.drop_of_length_le (by omega)]
    simp
  refine ⟨?_, h3⟩
  rw [h3]
  simp
  omega

/-- C3, at the freshly constructed editor with `UNDO_DEPTH = 2`. -/
theorem undo_history_capped_witness :
    (∀ steps : List HistoryStep,
      (runHistory sampleConfig RecolorEditor.new steps).UndoStack.length ≤ 2) ∧
    (∀ (steps : List HistoryStep) (snaps : List QImage), 2 < snaps.length →
      (runHistory sampleConfig (runHistory sampleConfig RecolorEditor.new steps)
          (snaps.map HistoryStep.checkpoint)).UndoStack.length = 2 ∧
      (runHistory sampleConfig (runHistory sampleConfig RecolorEditor.new steps)
          (snaps.map HistoryStep.checkpoint)).UndoStack = snaps.drop (snaps.length - 2)) :=
  undo_history_capped sampleConfig RecolorEditor.new rfl

/-- C4: `undo` on an empty history returns the editor unchanged and emits no
signal; on a history `older ++ [top]` it makes `top` the current image, leaves
exactly `older` as the history, keeps the original image, and emits
`undoAvailabilityChanged(false)` if and only if the history is empty
afterwards. -/
theorem undo_pops_most_recent (cfg : Config) (e : RecolorEditor) :
    (e.UndoStack = [] → undo cfg e = (e, [])) ∧
    (∀ (older : List QImage) (top : QImage), e.UndoStack = older ++ [top] →
      (undo cfg e).1.CurrentImage = top ∧
      (undo cfg e).1.UndoStack = older ∧
      (undo cfg e).1.OriginalImage = e.OriginalImage ∧
      (Signal.undoAvailabilityChanged false ∈ (undo cfg e).2 ↔ (undo cfg e).1.UndoStack = []) ∧
      (∀ b : Bool, Signal.undoAvailabilityChanged b ∈ (undo cfg e).2 → b = false)) := by
  constructor
  · intro h
    simp [undo, h]
  · intro older top h
    have hs : (undo cfg e).1.UndoStack = older := by
      rw [undo_stack, h]; simp
    have hpos : e.UndoStack.length > 0 := by rw [h]; simp
    refine ⟨?_, hs, ?_, ?_, ?_⟩
    · simp only [undo, hpos, if_true]
      rw [(RepaintImage_fields cfg _ true QRect.empty).2.2.2.2.2.1]
      simp [h]
    · simp only [undo, hpos, if_true]
      rw [(RepaintImage_fields cfg _ true QRect.empty).2.2.2.2.1]
    · rw [hs]
      simp only [undo, hpos, if_true, RepaintImage_signals, h, List.dropLast_concat]
      cases older <;> simp
    · intro b
      simp only [undo, hpos, if_true, RepaintImage_signals, h, List.dropLast_concat]
      cases older <;> simp

/-- C4, on the fresh editor (empty history) and on a history of two snapshots. -/
theorem undo_pops_most_recent_witness :
    undo sampleConfig RecolorEditor.new = (RecolorEditor.new, []) ∧
    (undo sampleConfig { RecolorEditor.new with
        UndoStack := [plainImage 1 1 7] ++ [plainImage 1 1 9] }).1.UndoStack
      = [plainImage 1 1 7] :=
  ⟨(undo_pops_most_recent sampleConfig RecolorEditor.new).1 rfl,
   ((undo_pops_most_recent sampleConfig
      { RecolorEditor.new with UndoStack := [plainImage 1 1 7] ++ [plainImage 1 1 9] }).2
      [plainImage 1 1 7] (plainImage 1 1 9) rfl).2.1⟩

/-- C5: when the current image is not null, `saveImage` calls the encoder with
the given path if the suffix of the path is `png`, `jpg` or `bmp` in any
letter case, and with the path followed by `.jpg` otherwise: whatever the
encoder is, the call succeeds (`imageSaved`, dirty flag cleared) exactly when
the encoder accepts the current image under that name, and fails
(`imageSaveFailed`, dirty flag kept) otherwise.  The path `photo` is saved as
`photo.jpg`. -/
theorem saveImage_file_name (save : String → QImage → Bool) (e : RecolorEditor)
    (image_file : String) (hcur : e.CurrentImage.isNull = false) :
    (saveImage save e image_file).savedAs =
      some (if (suffix image_file).toList.map Char.toLower ∈
                ["png".toList, "jpg".toList, "bmp".toList]
            then image_file else image_file ++ ".jpg") ∧
    (saveImage save e image_file).signals =
      (if save (if (suffix image_file).toList.map Char.toLower ∈
                    ["png".toList, "jpg".toList, "bmp".toList]
                then image_file else image_file ++ ".jpg") e.CurrentImage = true
       then [Signal.imageSaved] else [Signal.imageSaveFailed]) ∧
    (saveImage save e image_file).editor.IsChanged =
      (if save (if (suffix image_file).toList.map Char.toLower ∈
                    ["png".toList, "jpg".toList, "bmp".toList]
                then image_file else image_file ++ ".jpg") e.CurrentImage = true
       then false else e.IsChanged) ∧
    (saveImage save e "photo").savedAs = some "photo.jpg" ∧
    (saveImage save e "photo").signals =
      (if save "photo.jpg" e.CurrentImage = true
       then [Signal.imageSaved] else [Signal.imageSaveFailed]) := by
  have hname : ∀ f : String, saveFileName f =
      (if (suffix f).toList.map Char.toLower ∈ ["png".toList, "jpg".toList, "bmp".toList]
       then f else f ++ ".jpg") := by
    intro f
    unfold saveFileName compareNonZero
    have hp : ("png".toList.map Char.toLower) = "png".toList := by decide
    have hj : ("jpg".toList.map Char.toLower) = "jpg".toList := by decide
    have hb : ("bmp".toList.map Char.toLower) = "bmp".toList := by decide
    rw [hp, hj, hb]
    have e1 : "png".toList = ['p', 'n', 'g'] := rfl
    have e2 : "jpg".toList = ['j', 'p', 'g'] := rfl
    have e3 : "bmp".toList = ['b', 'm', 'p'] := rfl
    rw [e1, e2, e3]
    generalize (suffix f).toList.map Char.toLower = s
    by_cases h1 : s = ['p', 'n', 'g']
    · simp [h1]
    · by_cases h2 : s = ['j', 'p', 'g']
      · simp [h2]
      · by_cases h3 : s = ['b', 'm', 'p']
        · simp [h3]
        · simp [h1, h2, h3]
  have key : ∀ f : String,
      (saveImage save e f).savedAs = some (saveFileName f) ∧
      (saveImage save e f).signals =
        (if save (saveFileName f) e.CurrentImage = true
         then [Signal.imageSaved] else [Signal.imageSaveFailed]) ∧
      (saveImage save e f).editor.IsChanged =
        (if save (saveFileName f) e.CurrentImage = true then false else e.IsChanged) := by
    intro f
    unfold saveImage
    simp only [hcur, Bool.not_false, if_true]
    by_cases hs : save (saveFileName f) e.CurrentImage = true
    · simp [hs]
    · simp [hs]
  have hphoto : saveFileName "photo" = "photo.jpg" := by decide
  obtain ⟨k1, k2, k3⟩ := key image_file
  obtain ⟨p1, p2, _⟩ := key "photo"
  rw [hname image_file] at k1 k2 k3
  rw [hphoto] at p1 p2
  exact ⟨k1, k2, k3, p1, p2⟩

/-- C5, for an editor whose current image is a single pixel and two encoders
that tell names apart: one accepts only the name `photo.jpg`, and saving
`photo` succeeds; the other accepts only the name `photo`, and saving `photo`
fails. -/
theorem saveImage_file_name_witness :
    (saveImage (fun name _ => name == "photo.jpg")
      { RecolorEditor.new with CurrentImage := plainImage 1 1 0 } "photo").signals =
      [Signal.imageSaved] ∧
    (saveImage (fun name _ => name == "photo")
      { RecolorEditor.new with CurrentImage := plainImage 1 1 0 } "photo").signals =
      [Signal.imageSaveFailed] ∧
    (saveImage (fun name _ => name == "holiday.PNG")
      { RecolorEditor.new with CurrentImage := plainImage 1 1 0 } "holiday.PNG").signals =
      [Signal.imageSaved] := by
  have h1 := (saveImage_file_name (fun name _ => name == "photo.jpg")
    { RecolorEditor.new with CurrentImage := plainImage 1 1 0 } "photo" rfl).2.2.2.2
  have h2 := (saveImage_file_name (fun name _ => name == "photo")
    { RecolorEditor.new with CurrentImage := plainImage 1 1 0 } "photo" rfl).2.2.2.2
  have h3 := (saveImage_file_name (fun name _ => name == "holiday.PNG")
    { RecolorEditor.new with CurrentImage := plainImage 1 1 0 } "holiday.PNG" rfl).2.1
  refine ⟨?_, ?_, ?_⟩
  · rw [h1]; decide
  · rw [h2]; decide
  · rw [h3]; decide

/-- C7: a failing operation keeps the editor.  When the source cannot be read,
or decodes to a null image, or converts to a null image, `openImage` leaves the
original and current images, the undo history, the mode, the hue, the dirty
flag, the display buffer and the lookup table as they were and emits exactly
`imageOpenFailed`.  When the current image is null or the encoder fails,
`saveImage` returns the editor unchanged and emits exactly `imageSaveFailed`. -/
theorem failed_operation_keeps_editor (cfg : Config) (e : RecolorEditor)
    (reader : QImageReader) (save : String → QImage → Bool) (image_file : String) :
    ((reader.canRead = false ∨ reader.readIsNull (scaledSize cfg reader.size) = true ∨
        (reader.readRGB16 (scaledSize cfg reader.size)).isNull = true) →
      (openImage cfg e reader).1.OriginalImage = e.OriginalImage ∧
      (openImage cfg e reader).1.CurrentImage = e.CurrentImage ∧
      (openImage cfg e reader).1.UndoStack = e.UndoStack ∧
      (openImage cfg e reader).1.CurrentMode = e.CurrentMode ∧
      (openImage cfg e reader).1.CurrentHue = e.CurrentHue ∧
      (openImage cfg e reader).1.IsChanged = e.IsChanged ∧
      (openImage cfg e reader).1.CurrentImageData = e.CurrentImageData ∧
      (openImage cfg e reader).1.RGB16ToHSVMap = e.RGB16ToHSVMap ∧
      (openImage cfg e reader).2 = [Signal.imageOpenFailed]) ∧
    ((e.CurrentImage.isNull = true ∨ save (saveFileName image_file) e.CurrentImage = false) →
      (saveImage save e image_file).editor = e ∧
      (saveImage save e image_file).signals = [Signal.imageSaveFailed]) := by
  constructor
  · intro h
    unfold openImage
    by_cases hc : reader.canRead = true
    · by_cases hr : reader.readIsNull (scaledSize cfg reader.size) = true
      · simp [hc, hr]
      · by_cases hn : (reader.readRGB16 (scaledSize cfg reader.size)).isNull = true
        · simp [hc, hr, hn]
        · simp [hc, hr, hn] at h
    · simp [hc]
  · intro h
    unfold saveImage
    by_cases hn : e.CurrentImage.isNull = true
    · simp [hn]
    · have hs : save (saveFileName image_file) e.CurrentImage = false := by
        rcases h with h | h
        · exact absurd h hn
        · exact h
      simp [hn, hs]

/-- C7, for an unreadable source and for saving with no image loaded. -/
theorem failed_operation_keeps_editor_witness :
    (openImage sampleConfig RecolorEditor.new
        ⟨false, ⟨0, 0⟩, fun _ => true, fun _ => QImage.null⟩).2 = [Signal.imageOpenFailed] ∧
    (saveImage (fun _ _ => true) RecolorEditor.new "photo").signals =
      [Signal.imageSaveFailed] :=
  ⟨((failed_operation_keeps_editor sampleConfig RecolorEditor.new
      ⟨false, ⟨0, 0⟩, fun _ => true, fun _ => QImage.null⟩ (fun _ _ => true) "photo").1
      (Or.inl rfl)).2.2.2.2.2.2.2.2,
   ((failed_operation_keeps_editor sampleConfig RecolorEditor.new
      ⟨false, ⟨0, 0⟩, fun _ => true, fun _ => QImage.null⟩ (fun _ _ => true) "photo").2
      (Or.inl rfl)).2⟩

theorem changeImageAt_current (cfg : Config) (e : RecolorEditor) (save_undo : Bool)
    (cx cy radius : Int) (hmode : e.CurrentMode ≠ ModeScroll) :
    (changeImageAt cfg e save_undo cx cy radius).1.CurrentImage =
      brush e cx cy radius e.CurrentImage := by
  unfold changeImageAt
  simp only [hmode, ne_eq, not_false_eq_true, if_true]
  rw [(RepaintImage_fields cfg _ false _).2.2.2.2.2.1]
  cases save_undo <;> rfl

theorem changeImageAt_original (cfg : Config) (e : RecolorEditor) (save_undo : Bool)
    (cx cy radius : Int) :
    (changeImageAt cfg e save_undo cx cy radius).1.OriginalImage = e.OriginalImage := by
  unfold changeImageAt
  by_cases hmode : e.CurrentMode = ModeScroll
  · simp [hmode]
  · simp only [hmode, ne_eq, not_false_eq_true, if_true]
    rw [(RepaintImage_fields cfg _ false _).2.2.2.2.1]
    cases save_undo <;> rfl

/-- C10: `changeImageAt` never changes the original image nor the size of the
current image, and it leaves every pixel of the current image whose squared
distance from the centre exceeds the squared radius as it was, the corners of
the bounding square included; in mode `ModeScroll` it returns the editor
unchanged, so no pixel changes and no undo snapshot is pushed even when
`save_undo` is set, and it emits nothing. -/
theorem changeImageAt_frame (cfg : Config) (e : RecolorEditor) (save_undo : Bool)
    (cx cy radius : Int) :
    (changeImageAt cfg e save_undo cx cy radius).1.OriginalImage = e.OriginalImage ∧
    (changeImageAt cfg e save_undo cx cy radius).1.CurrentImage.width = e.CurrentImage.width ∧
    (changeImageAt cfg e save_undo cx cy radius).1.CurrentImage.height =
      e.CurrentImage.height ∧
    (∀ x y : Int, radius * radius < (x - cx) * (x - cx) + (y - cy) * (y - cy) →
      (changeImageAt cfg e save_undo cx cy radius).1.CurrentImage.bits x y =
        e.CurrentImage.bits x y ∧
      (changeImageAt cfg e save_undo cx cy radius).1.CurrentImage.pixel x y =
        e.CurrentImage.pixel x y) ∧
    (e.CurrentMode = ModeScroll → changeImageAt cfg e save_undo cx cy radius = (e, [])) := by
  refine ⟨changeImageAt_original cfg e save_undo cx cy radius, ?_⟩
  by_cases hmode : e.CurrentMode = ModeScroll
  · have hid : changeImageAt cfg e save_undo cx cy radius = (e, []) := by
      simp [changeImageAt, hmode]
    rw [hid]
    exact ⟨rfl, rfl, fun _ _ _ => ⟨rfl, rfl⟩, fun _ => rfl⟩
  · rw [changeImageAt_current cfg e save_undo cx cy radius hmode]
    obtain ⟨hw, hh, hb⟩ := brush_spec e cx cy radius e.CurrentImage
    refine ⟨hw, hh, ?_, fun h => absurd h hmode⟩
    intro x y hfar
    have hno : ¬ brushHits e cx cy radius e.CurrentImage x y := by
      rintro ⟨_, ⟨_, hd⟩, _⟩
      omega
    have hbits : (brush e cx cy radius e.CurrentImage).bits x y = e.CurrentImage.bits x y := by
      rw [hb x y]; simp [hno]
    refine ⟨hbits, ?_⟩
    simp only [QImage.pixel, QImage.valid, hw, hh, hbits]

/-- C10, in mode `ModeScroll` with `save_undo` set: nothing happens. -/
theorem changeImageAt_frame_witness :
    changeImageAt sampleConfig RecolorEditor.new true 1 1 1 = (RecolorEditor.new, []) :=
  (changeImageAt_frame sampleConfig RecolorEditor.new true 1 1 1).2.2.2.2 rfl

/-- C1: in mode `ModeOriginal`, on an editor whose original and current images
have the same size, after `changeImageAt` with centre `(cx, cy)` and radius
`radius ≥ 0` every pixel `(x, y)` of the image with
`(x - cx)² + (y - cy)² ≤ radius²` reads the same in the current image as in
the original image, and holds the same 16-bit word, whatever the current
image held before. -/
theorem paint_original_restores (cfg : Config) (e : RecolorEditor) (save_undo : Bool)
    (cx cy radius x y : Int)
    (hmode : e.CurrentMode = ModeOriginal)
    (hwidth : e.OriginalImage.width = e.CurrentImage.width)
    (hheight : e.OriginalImage.height = e.CurrentImage.height)
    (hradius : 0 ≤ radius)
    (hinside : e.CurrentImage.valid x y)
    (hdisc : (x - cx) * (x - cx) + (y - cy) * (y - cy) ≤ radius * radius) :
    (changeImageAt cfg e save_undo cx cy radius).1.CurrentImage.pixel x y =
      e.OriginalImage.pixel x y ∧
    (e.OriginalImage.bits x y < 65536 →
      (changeImageAt cfg e save_undo cx cy radius).1.CurrentImage.bits x y =
        e.OriginalImage.bits x y) := by
  have hns : e.CurrentMode ≠ ModeScroll := by rw [hmode]; decide
  rw [changeImageAt_current cfg e save_undo cx cy radius hns]
  obtain ⟨hw, hh, hb⟩ := brush_spec e cx cy radius e.CurrentImage
  have hhit : brushHits e cx cy radius e.CurrentImage x y :=
    ⟨hinside, ⟨hradius, hdisc⟩, Or.inl hmode⟩
  have hov : e.OriginalImage.valid x y := by
    unfold QImage.valid at hinside ⊢
    rw [hwidth, hheight]; exact hinside
  have hbits : (brush e cx cy radius e.CurrentImage).bits x y =
      e.OriginalImage.bits x y % 65536 := by
    rw [hb x y]
    simp only [hhit, if_true, brushValue, hmode, QImage.pixel, hov]
    exact qConvertRgb16_roundtrip _
  constructor
  · have hcv : (brush e cx cy radius e.CurrentImage).valid x y := by
      unfold QImage.valid at hinside ⊢
      rw [hw, hh]; exact hinside
    simp only [QImage.pixel, hcv, hov, if_true, hbits]
    exact qConvertRgb16To32_mod _
  · intro hlt
    rw [hbits]
    omega

/-- C1, at the pixel `(2, 1)` on the rim of a brush of radius 1 centred at
`(1, 1)`. -/
theorem paint_original_restores_witness :
    (changeImageAt sampleConfig repaintedSample false 1 1 1).1.CurrentImage.pixel 2 1 =
      repaintedSample.OriginalImage.pixel 2 1 ∧
    repaintedSample.CurrentImage.pixel 2 1 ≠ repaintedSample.OriginalImage.pixel 2 1 :=
  ⟨(paint_original_restores sampleConfig repaintedSample false 1 1 1 2 1
      rfl rfl rfl (by decide) (by decide) (by decide)).1, by decide⟩

/-! ## The partial render -/

theorem ite_setX (c : Prop) [Decidable c] (r : QRect) (v : Int) :
    (if c then r.setX v else r) = ⟨if c then v else r.x1, r.y1, r.x2, r.y2⟩ := by
  split <;> rfl

theorem ite_setY (c : Prop) [Decidable c] (r : QRect) (v : Int) :
    (if c then r.setY v else r) = ⟨r.x1, if c then v else r.y1, r.x2, r.y2⟩ := by
  split <;> rfl

theorem ite_setWidth (c : Prop) [Decidable c] (r : QRect) (v : Int) :
    (if c then r.setWidth v else r) =
      ⟨r.x1, r.y1, if c then wrap32 (r.x1 + v - 1) else r.x2, r.y2⟩ := by
  split <;> rfl

theorem ite_setHeight (c : Prop) [Decidable c] (r : QRect) (v : Int) :
    (if c then r.setHeight v else r) =
      ⟨r.x1, r.y1, r.x2, if c then wrap32 (r.y1 + v - 1) else r.y2⟩ := by
  split <;> rfl

theorem clampRect_x (w h : Int) (rect : QRect) (hw1 : 1 ≤ w) (hw2 : w < 2147483648) :
    0 ≤ (clampRect w h rect).x ∧ (clampRect w h rect).x ≤ w - 1 ∧
    wrap32 ((clampRect w h rect).x + (clampRect w h rect).width) ≤ w := by
  unfold clampRect
  simp only [ite_setX, ite_setY, ite_setWidth, ite_setHeight, QRect.x, QRect.y, QRect.width,
    QRect.height]
  split_ifs <;> simp only [wrap32] at * <;> omega

theorem clampRect_y (w h : Int) (rect : QRect) (hh1 : 1 ≤ h) (hh2 : h < 2147483648) :
    0 ≤ (clampRect w h rect).y ∧ (clampRect w h rect).y ≤ h - 1 ∧
    wrap32 ((clampRect w h rect).y + (clampRect w h rect).height) ≤ h := by
  unfold clampRect
  simp only [ite_setX, ite_setY, ite_setWidth, ite_setHeight, QRect.x, QRect.y, QRect.width,
    QRect.height]
  split_ifs <;> simp only [wrap32] at * <;> omega

theorem renderRow_range (img : QImage) (y lo : Int) (n : Nat) (acc : RenderAcc) :
    (renderRow img y ((List.range n).map (fun (k : Nat) => lo + (k : Int))) acc).dst =
      acc.dst + 4 * n ∧
    ∀ a ∈ (renderRow img y ((List.range n).map (fun (k : Nat) => lo + (k : Int))) acc).log,
      a ∈ acc.log ∨
        (lo ≤ a.x ∧ a.x < lo + n ∧ a.y = y ∧ a.dst = acc.dst + 4 * (a.x - lo)) := by
  induction n with
  | zero =>
    simp only [renderRow, List.range_zero, List.map_nil, List.foldl_nil]
    exact ⟨by simp, fun a ha => Or.inl ha⟩
  | succ n ih =>
    unfold renderRow at ih ⊢
    rw [List.range_succ, List.map_append, List.foldl_append]
    simp only [List.map_cons, List.map_nil, List.foldl_cons, List.foldl_nil]
    obtain ⟨hd, hl⟩ := ih
    refine ⟨by rw [hd]; push_cast; ring, ?_⟩
    intro a ha
    rw [List.mem_append, List.mem_singleton] at ha
    rcases ha with ha | ha
    · rcases hl a ha with h | ⟨h1, h2, h3, h4⟩
      · exact Or.inl h
      · exact Or.inr ⟨h1, by push_cast; omega, h3, h4⟩
    · right
      subst ha
      simp only
      rw [hd]
      refine ⟨by omega, by push_cast; omega, trivial, by ring⟩

theorem renderRow_forRange (img : QImage) (y lo hi : Int) (acc : RenderAcc) :
    (renderRow img y (forRange lo hi) acc).dst = acc.dst + 4 * (hi - lo).toNat ∧
    ∀ a ∈ (renderRow img y (forRange lo hi) acc).log,
      a ∈ acc.log ∨ (lo ≤ a.x ∧ a.x < hi ∧ a.y = y ∧ a.dst = acc.dst + 4 * (a.x - lo)) := by
  obtain ⟨hd, hl⟩ := renderRow_range img y lo (hi - lo).toNat acc
  refine ⟨hd, ?_⟩
  intro a ha
  rcases hl a ha with h | ⟨h1, h2, h3, h4⟩
  · exact Or.inl h
  · exact Or.inr ⟨h1, by omega, h3, h4⟩

theorem renderRows_range (img : QImage) (stride colOffset ylo xlo xhi : Int) (n : Nat)
    (acc : RenderAcc) :
    (renderRows img stride colOffset ((List.range n).map (fun (k : Nat) => ylo + (k : Int)))
      (forRange xlo xhi) acc).dst = acc.dst + stride * n ∧
    ∀ a ∈ (renderRows img stride colOffset
        ((List.range n).map (fun (k : Nat) => ylo + (k : Int))) (forRange xlo xhi) acc).log,
      a ∈ acc.log ∨
        (ylo ≤ a.y ∧ a.y < ylo + n ∧ xlo ≤ a.x ∧ a.x < xhi ∧
          a.dst = acc.dst + stride * (a.y - ylo) + colOffset + 4 * (a.x - xlo)) := by
  induction n with
  | zero =>
    simp only [renderRows, List.range_zero, List.map_nil, List.foldl_nil]
    exact ⟨by simp, fun a ha => Or.inl ha⟩
  | succ n ih =>
    unfold renderRows at ih ⊢
    rw [List.range_succ, List.map_append, List.foldl_append]
    simp only [List.map_cons, List.map_nil, List.foldl_cons, List.foldl_nil]
    obtain ⟨hd, hl⟩ := ih
    refine ⟨by rw [hd]; push_cast; ring, ?_⟩
    intro a ha
    rcases (renderRow_forRange img (ylo + (n : Int)) xlo xhi _).2 a ha with h | ⟨h1, h2, h3, h4⟩
    · rcases hl a h with h' | ⟨g1, g2, g3, g4, g5⟩
      · exact Or.inl h'
      · exact Or.inr ⟨g1, by push_cast; omega, g3, g4, g5⟩
    · right
      simp only at h4
      rw [hd] at h4
      refine ⟨by omega, by push_cast; omega, h1, h2, ?_⟩
      rw [h4, h3]
      ring

theorem renderPartial_log (img : QImage) (data : ImageData) (rect : QRect) :
    ∀ a ∈ (renderPartial img data rect).log,
      (clampRect data.width data.height rect).y ≤ a.y ∧
      a.y < wrap32 ((clampRect data.width data.height rect).y +
        (clampRect data.width data.height rect).height) ∧
      (clampRect data.width data.height rect).x ≤ a.x ∧
      a.x < wrap32 ((clampRect data.width data.height rect).x +
        (clampRect data.width data.height rect).width) ∧
      a.dst = a.y * data.bytesPerLine + 4 * a.x := by
  intro a ha
  unfold renderPartial forRange at ha
  simp only at ha
  have h := (renderRows_range img data.bytesPerLine
    ((clampRect data.width data.height rect).x * 4)
    (clampRect data.width data.height rect).y
    (clampRect data.width data.height rect).x
    (wrap32 ((clampRect data.width data.height rect).x +
      (clampRect data.width data.height rect).width))
    (wrap32 ((clampRect data.width data.height rect).y +
      (clampRect data.width data.height rect).height) -
      (clampRect data.width data.height rect).y).toNat
    { dst := (clampRect data.width data.height rect).y * data.bytesPerLine,
      pixels := data.pixels, log := [] }).2 a
  unfold forRange at h
  rcases h ha with h | ⟨h1, h2, h3, h4, h5⟩
  · simp at h
  · refine ⟨h1, by omega, h3, h4, ?_⟩
    rw [h5]
    simp only
    ring

/-- C6: for an editor whose current image and display buffer both measure
`W × H` with `W, H ≥ 1`, and whose display lines hold at least `4 · W` bytes,
and for any rectangle at all, the rectangle clamped by the partial branch of
`RepaintImage` has its origin in `[0, W - 1] × [0, H - 1]` and origin plus
extent at most `(W, H)`; every coordinate the loops pass to
`CurrentImage.pixel` is inside the image, and the four bytes of every store lie
inside the `H · bytesPerLine` bytes of the buffer. -/
theorem partial_render_in_bounds (cfg : Config) (e : RecolorEditor) (rect : QRect)
    (hW : 1 ≤ e.CurrentImageData.width) (hH : 1 ≤ e.CurrentImageData.height)
    (hW32 : e.CurrentImageData.width < 2147483648)
    (hH32 : e.CurrentImageData.height < 2147483648)
    (hwidth : e.CurrentImage.width = e.CurrentImageData.width)
    (hheight : e.CurrentImage.height = e.CurrentImageData.height)
    (hstride : 4 * e.CurrentImageData.width ≤ e.CurrentImageData.bytesPerLine) :
    (0 ≤ (clampRect e.CurrentImageData.width e.CurrentImageData.height rect).x ∧
      (clampRect e.CurrentImageData.width e.CurrentImageData.height rect).x ≤
        (e.CurrentImageData.width : Int) - 1 ∧
      0 ≤ (clampRect e.CurrentImageData.width e.CurrentImageData.height rect).y ∧
      (clampRect e.CurrentImageData.width e.CurrentImageData.height rect).y ≤
        (e.CurrentImageData.height : Int) - 1 ∧
      wrap32 ((clampRect e.CurrentImageData.width e.CurrentImageData.height rect).x +
        (clampRect e.CurrentImageData.width e.CurrentImageData.height rect).width) ≤
          e.CurrentImageData.width ∧
      wrap32 ((clampRect e.CurrentImageData.width e.CurrentImageData.height rect).y +
        (clampRect e.CurrentImageData.width e.CurrentImageData.height rect).height) ≤
          e.CurrentImageData.height) ∧
    (RepaintImage cfg e false rect).1.CurrentImageData.pixels =
      (renderPartial e.CurrentImage e.CurrentImageData rect).pixels ∧
    (∀ a ∈ (renderPartial e.CurrentImage e.CurrentImageData rect).log,
      e.CurrentImage.valid a.x a.y ∧ 0 ≤ a.dst ∧
      a.dst + 3 < (e.CurrentImageData.height : Int) * e.CurrentImageData.bytesPerLine) := by
  obtain ⟨hx1, hx2, hx3⟩ := clampRect_x e.CurrentImageData.width e.CurrentImageData.height rect
    (by omega) (by omega)
  obtain ⟨hy1, hy2, hy3⟩ := clampRect_y e.CurrentImageData.width e.CurrentImageData.height rect
    (by omega) (by omega)
  refine ⟨⟨hx1, hx2, hy1, hy2, hx3, hy3⟩, ?_, ?_⟩
  · have hnn : e.CurrentImage.isNull = false := by
      unfold QImage.isNull
      rw [hwidth, hheight]
      simp
      omega
    simp [RepaintImage, hnn]
  · intro a ha
    obtain ⟨g1, g2, g3, g4, g5⟩ := renderPartial_log e.CurrentImage e.CurrentImageData rect a ha
    have hax0 : 0 ≤ a.x := by omega
    have hax1 : a.x < e.CurrentImageData.width := by omega
    have hay0 : 0 ≤ a.y := by omega
    have hay1 : a.y < e.CurrentImageData.height := by omega
    refine ⟨?_, ?_, ?_⟩
    · unfold QImage.valid
      rw [hwidth, hheight]
      exact ⟨hax0, hax1, hay0, hay1⟩
    · rw [g5]
      have : 0 ≤ a.y * (e.CurrentImageData.bytesPerLine : Int) :=
        mul_nonneg hay0 (by omega)
      omega
    · rw [g5]
      have h1 : a.y * (e.CurrentImageData.bytesPerLine : Int) ≤
          ((e.CurrentImageData.height : Int) - 1) * e.CurrentImageData.bytesPerLine :=
        mul_le_mul_of_nonneg_right (by omega) (by omega)
      have h2 : ((e.CurrentImageData.height : Int) - 1) * e.CurrentImageData.bytesPerLine =
          (e.CurrentImageData.height : Int) * e.CurrentImageData.bytesPerLine -
            e.CurrentImageData.bytesPerLine := by ring
      omega

/-- C6, for the 3 × 3 editor and `QRect(-5, 1, 10, 10)`, which sticks out on
three sides: the loops touch the six pixels of lines 1 and 2, all inside. -/
theorem partial_render_in_bounds_witness :
    (renderPartial strokeSample.CurrentImage strokeSample.CurrentImageData
      (QRect.ofSize (-5) 1 10 10)).log =
      [⟨0, 1, 12⟩, ⟨1, 1, 16⟩, ⟨2, 1, 20⟩, ⟨0, 2, 24⟩, ⟨1, 2, 28⟩, ⟨2, 2, 32⟩] ∧
    ∀ a ∈ (renderPartial strokeSample.CurrentImage strokeSample.CurrentImageData
        (QRect.ofSize (-5) 1 10 10)).log,
      strokeSample.CurrentImage.valid a.x a.y ∧ 0 ≤ a.dst ∧
      a.dst + 3 < (strokeSample.CurrentImageData.height : Int) *
        strokeSample.CurrentImageData.bytesPerLine :=
  ⟨by decide,
   (partial_render_in_bounds sampleConfig strokeSample (QRect.ofSize (-5) 1 10 10)
      (by decide) (by decide) (by decide) (by decide) (by decide) (by decide)
      (by decide)).2.2⟩

/-! ## The lookup table and `AdjustHue` -/

theorem fillMap_upto (table : Nat → HSV) (n : Nat) :
    ∀ i, (List.range n).foldl (fun m i => fun j => if j = i then hsvOfIndex i else m j) table i =
      if i < n then hsvOfIndex i else table i := by
  induction n with
  | zero => intro i; simp
  | succ n ih =>
    intro i
    rw [List.range_succ, List.foldl_append]
    simp only [List.foldl_cons, List.foldl_nil]
    by_cases h : i = n
    · subst h; simp
    · rw [if_neg h, ih i]
      by_cases h2 : i < n
      · have : i < n + 1 := by omega
        simp [h2, this]
      · have : ¬ i < n + 1 := by omega
        simp [h2, this]

theorem fillMap_apply (table : Nat → HSV) (i : Nat) (h : i < 65536) :
    fillMap table i = hsvOfIndex i := by
  unfold fillMap
  rw [fillMap_upto table 65536 i, if_pos h]

theorem qRed_qRgba (r g b a : Nat) : qRed (qRgba r g b a) = r % 256 := by
  unfold qRed qRgba; omega

theorem qGreen_qRgba (r g b a : Nat) : qGreen (qRgba r g b a) = g % 256 := by
  unfold qGreen qRgba; omega

theorem qBlue_qRgba (r g b a : Nat) : qBlue (qRgba r g b a) = b % 256 := by
  unfold qBlue qRgba; omega

theorem qAlpha_qRgba (r g b a : Nat) : qAlpha (qRgba r g b a) = a % 256 := by
  unfold qAlpha qRgba; omega

theorem hsvOfIndex_pack (r g b : Nat) (hr : r < 32) (hg : g < 64) (hb : b < 32) :
    hsvOfIndex (RGB16.rgb ⟨r, g, b⟩) =
      { h := QColor.hue (r * 8) (g * 4) (b * 8)
        s := QColor.saturation (r * 8) (g * 4) (b * 8)
        v := QColor.value (r * 8) (g * 4) (b * 8) } := by
  unfold hsvOfIndex RGB16.rgb RGB16.ofRgb qRgb
  simp only [qRed_qRgba, qGreen_qRgba, qBlue_qRgba]
  have h1 : (r % 32 + g % 64 * 32 + b % 32 * 2048) % 32 * 8 % 256 = r * 8 := by omega
  have h2 : (r % 32 + g % 64 * 32 + b % 32 * 2048) / 32 % 64 * 4 % 256 = g * 4 := by omega
  have h3 : (r % 32 + g % 64 * 32 + b % 32 * 2048) / 2048 % 32 * 8 % 256 = b * 8 := by omega
  rw [h1, h2, h3]

theorem AdjustHue_eq (e : RecolorEditor) (rgb : QRgb)
    (hmap : e.RGB16ToHSVMap = RecolorEditor.new.RGB16ToHSVMap) :
    AdjustHue e rgb =
      QColor.fromHsvRgba e.CurrentHue
        (QColor.saturation (qRed rgb / 8 * 8) (qGreen rgb / 4 * 4) (qBlue rgb / 8 * 8))
        (QColor.value (qRed rgb / 8 * 8) (qGreen rgb / 4 * 4) (qBlue rgb / 8 * 8))
        (qAlpha rgb) := by
  have hr : qRed rgb < 256 := Nat.mod_lt _ (by norm_num)
  have hg : qGreen rgb < 256 := Nat.mod_lt _ (by norm_num)
  have hb : qBlue rgb < 256 := Nat.mod_lt _ (by norm_num)
  have h1 : qRed rgb / 8 % 32 = qRed rgb / 8 := by omega
  have h2 : qGreen rgb / 4 % 64 = qGreen rgb / 4 := by omega
  have h3 : qBlue rgb / 8 % 32 = qBlue rgb / 8 := by omega
  unfold AdjustHue
  simp only [hmap, RecolorEditor.new, h1, h2, h3]
  rw [fillMap_apply _ _ (by unfold RGB16.rgb; omega),
    hsvOfIndex_pack _ _ _ (by omega) (by omega) (by omega)]

theorem roundDiv_mul_le (v x d : Nat) (hd : 0 < d) (hx : x ≤ d) : roundDiv (v * x) d ≤ v := by
  unfold roundDiv
  have h1 : v * x ≤ v * d := Nat.mul_le_mul_left v hx
  have h2 : 2 * (v * x) + d < (v + 1) * (2 * d) := by nlinarith
  have := (Nat.div_lt_iff_lt_mul (by omega : 0 < 2 * d)).mpr h2
  omega

theorem value_eq_max (r g b : Nat) (hr : r < 256) (hg : g < 256) (hb : b < 256) :
    QColor.value r g b = max r (max g b) := by
  unfold QColor.value QColor.toHsv
  simp only
  have hm : max r (max g b) < 256 := by simp [hr, hg, hb]
  split <;> simp only <;> omega

theorem saturation_le (r g b : Nat) : QColor.saturation r g b ≤ 255 := by
  unfold QColor.saturation QColor.toHsv
  simp only
  split
  · simp
  · have h := roundDiv_mul_le 65535 (max r (max g b) - min r (min g b)) (max r (max g b))
      (by omega) (by omega)
    rw [Nat.mul_comm] at h
    dsimp only
    omega

theorem qRed_lt (rgb : QRgb) : qRed rgb < 256 := Nat.mod_lt _ (by norm_num)

theorem qGreen_lt (rgb : QRgb) : qGreen rgb < 256 := Nat.mod_lt _ (by norm_num)

theorem qBlue_lt (rgb : QRgb) : qBlue rgb < 256 := Nat.mod_lt _ (by norm_num)

theorem qAlpha_lt (rgb : QRgb) : qAlpha rgb < 256 := Nat.mod_lt _ (by norm_num)

theorem mul257_div256 (a : Nat) (h : a < 256) : a * 257 / 256 = a := by
  have h1 : a * 257 = a + 256 * a := by ring
  rw [h1, Nat.add_mul_div_left _ _ (by norm_num : 0 < 256), Nat.div_eq_of_lt h]
  omega

theorem fromHsvRgba_alpha (h : Int) (s v a : Nat) (hh0 : 0 ≤ h) (hh1 : h < 360)
    (hs : s ≤ 255) (hv : v ≤ 255) (ha : a ≤ 255) :
    qAlpha (QColor.fromHsvRgba h s v a) = a := by
  unfold QColor.fromHsvRgba
  have hvalid : ¬ (((h < 0 ∨ h ≥ 360) ∧ h ≠ -1) ∨ s > 255 ∨ v > 255 ∨ a > 255) := by omega
  have hne : ¬ h = -1 := by omega
  rw [if_neg hvalid]
  simp only [hne, if_false]
  have ha8 : a * 257 / 256 % 256 = a := by
    rw [mul257_div256 a (by omega)]; omega
  split
  · rw [qAlpha_qRgba, ha8]
  · split <;> rw [qAlpha_qRgba, ha8]

theorem fromHsvRgba_value (h : Int) (s v a : Nat) (hh0 : 0 ≤ h) (hh1 : h < 360)
    (hs : s ≤ 255) (hv : v ≤ 255) (ha : a ≤ 255) :
    QColor.value (qRed (QColor.fromHsvRgba h s v a)) (qGreen (QColor.fromHsvRgba h s v a))
      (qBlue (QColor.fromHsvRgba h s v a)) = v := by
  rw [value_eq_max _ _ _ (qRed_lt _) (qGreen_lt _) (qBlue_lt _)]
  unfold QColor.fromHsvRgba
  have hvalid : ¬ (((h < 0 ∨ h ≥ 360) ∧ h ≠ -1) ∨ s > 255 ∨ v > 255 ∨ a > 255) := by omega
  have hne : ¬ h = -1 := by omega
  rw [if_neg hvalid]
  simp only [hne, if_false]
  have hv8 : v * 257 / 256 % 256 = v := by
    rw [mul257_div256 v (by omega)]; omega
  have hp := roundDiv_mul_le (v * 257) (65535 - s * 257) 65535 (by norm_num) (by omega)
  have hq := roundDiv_mul_le (v * 257)
    (65535 * 6000 - s * 257 * ((h % 360).toNat * 100 % 6000))
    (65535 * 6000) (by norm_num) (by omega)
  have ht := roundDiv_mul_le (v * 257)
    (65535 * 6000 - s * 257 * (6000 - (h % 360).toNat * 100 % 6000))
    (65535 * 6000) (by norm_num) (by omega)
  generalize roundDiv (v * 257 * (65535 - s * 257)) 65535 = p at hp
  generalize roundDiv (v * 257 * (65535 * 6000 -
    s * 257 * ((h % 360).toNat * 100 % 6000))) (65535 * 6000) = q at hq
  generalize roundDiv (v * 257 * (65535 * 6000 -
    s * 257 * (6000 - (h % 360).toNat * 100 % 6000))) (65535 * 6000) = t at ht
  have hp8 : p / 256 % 256 ≤ v := by omega
  have hq8 : q / 256 % 256 ≤ v := by omega
  have ht8 : t / 256 % 256 ≤ v := by omega
  split
  · simp only [qRed_qRgba, qGreen_qRgba, qBlue_qRgba, hv8]
    simp
  · split <;> simp only [qRed_qRgba, qGreen_qRgba, qBlue_qRgba, hv8] <;>
      simp [hp8, hq8, ht8]

theorem hue120Sample_map :
    hue120Sample.RGB16ToHSVMap = RecolorEditor.new.RGB16ToHSVMap := by
  simp only [hue120Sample, RecolorEditor.setHue]

/-- C2, as the code has it: with the table built by the constructor and a
target hue in `0..359`, `AdjustHue` rebuilds the pixel with
`QColor::fromHsv` from the target hue, the saturation and value of the
quantised colour `(r & 0xf8, g & 0xfc, b & 0xf8)` (the table entry, not the
pixel's own HSV conversion) and the pixel's alpha; the result has that alpha,
and its value is the value of the quantised colour, the largest of its three
channels.  For `(200, 50, 50)` and hue 120 the result is `(48, 200, 48)`: hue
120, value 200 as for `(200, 50, 50)`, and saturation 194, which is that of
`(200, 48, 48)`, while `(200, 50, 50)` has saturation 191. -/
theorem AdjustHue_uses_quantised_colour (e : RecolorEditor) (rgb : QRgb)
    (hmap : e.RGB16ToHSVMap = RecolorEditor.new.RGB16ToHSVMap)
    (hhue0 : 0 ≤ e.CurrentHue) (hhue1 : e.CurrentHue < 360) :
    (AdjustHue e rgb =
      QColor.fromHsvRgba e.CurrentHue
        (QColor.saturation (qRed rgb / 8 * 8) (qGreen rgb / 4 * 4) (qBlue rgb / 8 * 8))
        (QColor.value (qRed rgb / 8 * 8) (qGreen rgb / 4 * 4) (qBlue rgb / 8 * 8))
        (qAlpha rgb)) ∧
    qAlpha (AdjustHue e rgb) = qAlpha rgb ∧
    QColor.value (qRed (AdjustHue e rgb)) (qGreen (AdjustHue e rgb)) (qBlue (AdjustHue e rgb)) =
      max (qRed rgb / 8 * 8) (max (qGreen rgb / 4 * 4) (qBlue rgb / 8 * 8)) ∧
    (AdjustHue hue120Sample (qRgba 200 50 50 255) = qRgba 48 200 48 255 ∧
      QColor.hue 48 200 48 = 120 ∧
      QColor.value 48 200 48 = 200 ∧ QColor.value 200 50 50 = 200 ∧
      QColor.saturation 48 200 48 = 194 ∧ QColor.saturation 200 48 48 = 194 ∧
      QColor.saturation 200 50 50 = 191) := by
  have hr := qRed_lt rgb
  have hg := qGreen_lt rgb
  have hb := qBlue_lt rgb
  have ha := qAlpha_lt rgb
  have hs := saturation_le (qRed rgb / 8 * 8) (qGreen rgb / 4 * 4) (qBlue rgb / 8 * 8)
  have hv := value_eq_max (qRed rgb / 8 * 8) (qGreen rgb / 4 * 4) (qBlue rgb / 8 * 8)
    (by omega) (by omega) (by omega)
  have hv' : QColor.value (qRed rgb / 8 * 8) (qGreen rgb / 4 * 4) (qBlue rgb / 8 * 8) ≤ 255 := by
    rw [hv]
    have : max (qRed rgb / 8 * 8) (max (qGreen rgb / 4 * 4) (qBlue rgb / 8 * 8)) < 256 := by
      simp only [max_lt_iff]
      omega
    omega
  refine ⟨AdjustHue_eq e rgb hmap, ?_, ?_, ?_⟩
  · rw [AdjustHue_eq e rgb hmap]
    exact fromHsvRgba_alpha _ _ _ _ hhue0 hhue1 hs hv' (by omega)
  · rw [AdjustHue_eq e rgb hmap, fromHsvRgba_value _ _ _ _ hhue0 hhue1 hs hv' (by omega), hv]
  · refine ⟨?_, by decide, by decide, by decide, by decide, by decide, by decide⟩
    rw [AdjustHue_eq hue120Sample _ hue120Sample_map]
    decide

/-- C2 as amended, at the editor with hue 120 and the pixel
`(200, 50, 50)`. -/
theorem AdjustHue_uses_quantised_colour_witness :
    qAlpha (AdjustHue hue120Sample (qRgba 200 50 50 255)) = qAlpha (qRgba 200 50 50 255) ∧
    AdjustHue hue120Sample (qRgba 200 50 50 255) = qRgba 48 200 48 255 :=
  ⟨(AdjustHue_uses_quantised_colour hue120Sample (qRgba 200 50 50 255)
      hue120Sample_map (by decide) (by decide)).2.1,
   (AdjustHue_uses_quantised_colour hue120Sample (qRgba 200 50 50 255)
      hue120Sample_map (by decide) (by decide)).2.2.2.1⟩

/-- C2 fails as stated: with hue 120 the pixel `(200, 50, 50)` becomes a pixel
of saturation 194, not the saturation 191 of `(200, 50, 50)`; white, of
value 255 and saturation 0, becomes a pixel of value 252; and black stays
black, whose hue is undefined (`-1`) rather than 120. -/
theorem AdjustHue_not_own_hsv :
    QColor.saturation (qRed (AdjustHue hue120Sample (qRgba 200 50 50 255)))
        (qGreen (AdjustHue hue120Sample (qRgba 200 50 50 255)))
        (qBlue (AdjustHue hue120Sample (qRgba 200 50 50 255))) ≠
      QColor.saturation 200 50 50 ∧
    QColor.value (qRed (AdjustHue hue120Sample (qRgba 255 255 255 255)))
        (qGreen (AdjustHue hue120Sample (qRgba 255 255 255 255)))
        (qBlue (AdjustHue hue120Sample (qRgba 255 255 255 255))) ≠
      QColor.value 255 255 255 ∧
    QColor.hue (qRed (AdjustHue hue120Sample (qRgba 0 0 0 255)))
        (qGreen (AdjustHue hue120Sample (qRgba 0 0 0 255)))
        (qBlue (AdjustHue hue120Sample (qRgba 0 0 0 255))) ≠ 120 := by
  rw [AdjustHue_eq hue120Sample _ hue120Sample_map, AdjustHue_eq hue120Sample _ hue120Sample_map,
    AdjustHue_eq hue120Sample _ hue120Sample_map]
  decide

/-! ## The refresh after a brush stroke -/

theorem strokeSample_map :
    strokeSample.RGB16ToHSVMap = RecolorEditor.new.RGB16ToHSVMap := by
  unfold strokeSample openImage whiteReader
  simp only [setMode, Bool.not_false, if_true]
  have hn : (plainImage 3 3 65535).isNull = false := by decide
  simp only [hn, Bool.not_false, if_true]
  rw [(RepaintImage_fields sampleConfig _ true QRect.empty).2.2.2.2.2.2.2]

/-- C9 fails on the code: after construction, `openImage` of a white 3 × 3
image (the display buffer then encodes the current image) and
`setMode(ModeEffected)`, the stroke `changeImageAt(false, 1, 1, zoom)` with
radius 1 changes the pixel `(2, 1)` on the rim of the brush from white to
`(255, 251, 255)`, but the partial refresh receives `QRect(0, 0, 2, 2)`, which
ends at column 1: the bytes of pixel `(2, 1)` still hold white, so the display
buffer no longer encodes the current image. -/
theorem partial_refresh_misses_brush_rim :
    encodes strokeSample.CurrentImageData strokeSample.CurrentImage ∧
    strokeSample.CurrentImage.pixel 2 1 = qRgba 255 255 255 255 ∧
    (changeImageAt sampleConfig strokeSample false 1 1 1).1.CurrentImage.pixel 2 1 =
      qRgba 255 251 255 255 ∧
    (changeImageAt sampleConfig strokeSample false 1 1 1).1.CurrentImageData.pixels
      (1 * 12 + 4 * 2 + 1) = 255 ∧
    ¬ encodes (changeImageAt sampleConfig strokeSample false 1 1 1).1.CurrentImageData
      (changeImageAt sampleConfig strokeSample false 1 1 1).1.CurrentImage := by
  have hcur := changeImageAt_current sampleConfig strokeSample false 1 1 1 (by decide)
  obtain ⟨hw, hh, hb⟩ := brush_spec strokeSample 1 1 1 strokeSample.CurrentImage
  have hhit : brushHits strokeSample 1 1 1 strokeSample.CurrentImage 2 1 := by decide
  have hbits : (brush strokeSample 1 1 1 strokeSample.CurrentImage).bits 2 1 = 65503 := by
    rw [hb, if_pos hhit]
    unfold brushValue
    rw [if_neg (by decide), AdjustHue_eq _ _ strokeSample_map]
    decide
  have hvalid : (brush strokeSample 1 1 1 strokeSample.CurrentImage).valid 2 1 := by
    unfold QImage.valid
    rw [hw, hh]
    decide
  have hpix : (changeImageAt sampleConfig strokeSample false 1 1 1).1.CurrentImage.pixel 2 1 =
      qRgba 255 251 255 255 := by
    rw [hcur]
    unfold QImage.pixel
    rw [if_pos hvalid, hbits]
    decide
  have hbyte : (changeImageAt sampleConfig strokeSample false 1 1 1).1.CurrentImageData.pixels
      (1 * 12 + 4 * 2 + 1) = 255 := by decide
  refine ⟨⟨by decide, by decide, ?_⟩, by decide, hpix, hbyte, ?_⟩
  · intro x y hv
    have hx : x = 0 ∨ x = 1 ∨ x = 2 := by
      have := hv.1
      have := hv.2.1
      have h3 : strokeSample.CurrentImage.width = 3 := by decide
      omega
    have hy : y = 0 ∨ y = 1 ∨ y = 2 := by
      have := hv.2.2.1
      have := hv.2.2.2
      have h3 : strokeSample.CurrentImage.height = 3 := by decide
      omega
    rcases hx with rfl | rfl | rfl <;> rcases hy with rfl | rfl | rfl <;> decide
  · rintro ⟨_, _, henc⟩
    have h21 := (henc 2 1 (by rw [hcur]; exact hvalid)).2.1
    rw [hpix] at h21
    have hbpl : (changeImageAt sampleConfig strokeSample false 1 1 1).1.CurrentImageData.bytesPerLine
        = 12 := by decide
    rw [hbpl] at h21
    rw [show ((1 : Int) * ((12 : Nat) : Int) + 4 * 2 + 1) = 1 * 12 + 4 * 2 + 1 by norm_num,
      hbyte] at h21
    exact absurd h21 (by decide)

/-! ## The megapixel ceiling of `openImage` -/

theorem wrap32_of_range (n : Int) (h1 : -2147483648 ≤ n) (h2 : n < 2147483648) :
    wrap32 n = n := by
  unfold wrap32; omega

/-- Where the `int` pixel count does not overflow and exceeds the ceiling,
`openImage` asks the reader for the size made of the two scaled sides. -/
theorem scaledSize_requested (cfg : Config) (w h : Nat)
    (hfit : w * h < 2147483648) (hbig : cfg.IMAGE_PIXEL_LIMIT < w * h) :
    scaledSize cfg ⟨w, h⟩ =
      some ⟨cfg.scaledSide w ((w * h : Nat) : Int), cfg.scaledSide h ((w * h : Nat) : Int)⟩ := by
  unfold scaledSize
  simp only
  have hp : wrap32 ((w : Int) * (h : Int)) = ((w * h : Nat) : Int) := by
    rw [wrap32_of_range]
    · push_cast; rfl
    · have : (0 : Int) ≤ (w : Int) * (h : Int) := by positivity
      omega
    · exact_mod_cast hfit
  rw [hp]
  have hgt : ((w * h : Nat) : Int) > (cfg.IMAGE_PIXEL_LIMIT : Int) := by exact_mod_cast hbig
  rw [if_pos hgt]

/-- C8 fails on the code for a source of 50000 × 50000 pixels: the `int`
product `size.width() * size.height()` wraps to `-1794967296`, the comparison
with the ceiling fails, no scaled size is set and the image is decoded at full
size, 2 500 000 000 pixels against a ceiling of 5 000 000. -/
theorem openImage_ceiling_skipped_on_overflow :
    wrap32 (50000 * 50000) = -1794967296 ∧
    scaledSize sampleConfig hugeReader.size = none ∧
    (openImage sampleConfig RecolorEditor.new hugeReader).1.CurrentImage.width = 50000 ∧
    (openImage sampleConfig RecolorEditor.new hugeReader).1.CurrentImage.height = 50000 ∧
    (openImage sampleConfig RecolorEditor.new hugeReader).2 =
      [Signal.needImageRepaint false, Signal.undoAvailabilityChanged false,
        Signal.imageOpened] ∧
    sampleConfig.IMAGE_PIXEL_LIMIT < 50000 * 50000 := by
  refine ⟨by decide, by decide, ?_, ?_, ?_, by decide⟩
  · unfold openImage
    have hs : scaledSize sampleConfig hugeReader.size = none := by decide
    simp only [hs]
    rw [if_pos (by decide), if_pos (by decide), if_pos (by decide)]
    rw [(RepaintImage_fields sampleConfig _ true QRect.empty).2.2.2.2.2.1]
    decide
  · unfold openImage
    have hs : scaledSize sampleConfig hugeReader.size = none := by decide
    simp only [hs]
    rw [if_pos (by decide), if_pos (by decide), if_pos (by decide)]
    rw [(RepaintImage_fields sampleConfig _ true QRect.empty).2.2.2.2.2.1]
    decide
  · unfold openImage
    have hs : scaledSize sampleConfig hugeReader.size = none := by decide
    simp only [hs]
    rw [if_pos (by decide), if_pos (by decide), if_pos (by decide)]
    rw [RepaintImage_signals]
    decide

/-! ## What every reachable editor satisfies -/

theorem RepaintImage_display (cfg : Config) (e : RecolorEditor) (rect : QRect)
    (hnull : e.CurrentImage.width = 0 ↔ e.CurrentImage.height = 0) :
    (RepaintImage cfg e true rect).1.CurrentImageData.width = e.CurrentImage.width ∧
    (RepaintImage cfg e true rect).1.CurrentImageData.height = e.CurrentImage.height ∧
    (e.CurrentImage.isNull = false →
      (RepaintImage cfg e true rect).1.CurrentImageData.bytesPerLine =
        cfg.bytesPerLine e.CurrentImage.width) := by
  unfold RepaintImage
  by_cases hn : e.CurrentImage.isNull = true
  · have h0 : e.CurrentImage.width = 0 ∧ e.CurrentImage.height = 0 := by
      unfold QImage.isNull at hn
      simp only [Bool.or_eq_true, beq_iff_eq] at hn
      rcases hn with h | h
      · exact ⟨h, hnull.mp h⟩
      · exact ⟨hnull.mpr h, h⟩
    simp [hn, ImageData.null, h0.1, h0.2]
  · simp [hn, ImageData.create]

theorem RepaintImage_partial_display (cfg : Config) (e : RecolorEditor) (rect : QRect)
    (hnull : e.CurrentImage.width = 0 ↔ e.CurrentImage.height = 0)
    (hw : e.CurrentImageData.width = e.CurrentImage.width)
    (hh : e.CurrentImageData.height = e.CurrentImage.height) :
    (RepaintImage cfg e false rect).1.CurrentImageData.width = e.CurrentImage.width ∧
    (RepaintImage cfg e false rect).1.CurrentImageData.height = e.CurrentImage.height ∧
    (e.CurrentImage.isNull = false →
      (RepaintImage cfg e false rect).1.CurrentImageData.bytesPerLine =
        e.CurrentImageData.bytesPerLine) := by
  unfold RepaintImage
  by_cases hn : e.CurrentImage.isNull = true
  · have h0 : e.CurrentImage.width = 0 ∧ e.CurrentImage.height = 0 := by
      unfold QImage.isNull at hn
      simp only [Bool.or_eq_true, beq_iff_eq] at hn
      rcases hn with h | h
      · exact ⟨h, hnull.mp h⟩
      · exact ⟨hnull.mpr h, h⟩
    simp [hn, ImageData.null, h0.1, h0.2]
  · simp [hn, hw, hh]

theorem evict_subset (depth : Nat) (l : List QImage) :
    ∀ i img, img ∈ evict depth i l → img ∈ l := by
  induction l with
  | nil => intro i img h; simp [evict] at h
  | cons a rest ih =>
    intro i img h
    unfold evict at h
    split at h
    · exact List.mem_cons_of_mem _ (ih _ _ h)
    · exact h

theorem SaveUndoImage_fields (cfg : Config) (e : RecolorEditor) :
    (SaveUndoImage cfg e).1 = { e with UndoStack := (SaveUndoImage cfg e).1.UndoStack } ∧
    ∀ img ∈ (SaveUndoImage cfg e).1.UndoStack, img ∈ e.UndoStack ∨ img = e.CurrentImage := by
  refine ⟨rfl, ?_⟩
  intro img h
  unfold SaveUndoImage at h
  simp only at h
  split at h
  · have := evict_subset _ _ _ _ h
    simpa using this
  · simpa using h

theorem consistent_new (cfg : Config) : Consistent cfg RecolorEditor.new where
  original_width := rfl
  original_height := rfl
  current_null := Iff.rfl
  undo_sizes := by intro img h; simp [RecolorEditor.new] at h
  undo_depth := Nat.zero_le _
  table := rfl
  display_width := rfl
  display_height := rfl
  display_stride := by intro h; simp [RecolorEditor.new, QImage.null, QImage.isNull] at h
  loaded_null := rfl

theorem consistent_openImage (cfg : Config) (e : RecolorEditor) (reader : QImageReader)
    (h : Consistent cfg e) : Consistent cfg (openImage cfg e reader).1 := by
  unfold openImage
  by_cases hc : reader.canRead = true
  · by_cases hr : reader.readIsNull (scaledSize cfg reader.size) = true
    · simp only [hc, hr, if_true, Bool.not_true, Bool.false_eq_true, if_false]
      exact { h with loaded_null := rfl }
    · by_cases hn : (reader.readRGB16 (scaledSize cfg reader.size)).isNull = true
      · simp only [hc, hr, hn, if_true, Bool.not_true, Bool.false_eq_true, if_false,
          Bool.not_false]
        exact { h with loaded_null := hn }
      · simp only [hc, hr, hn, if_true, Bool.not_false]
        have hnn : (reader.readRGB16 (scaledSize cfg reader.size)).isNull = false := by
          simpa using hn
        have hwf : (reader.readRGB16 (scaledSize cfg reader.size)).width = 0 ↔
            (reader.readRGB16 (scaledSize cfg reader.size)).height = 0 := by
          unfold QImage.isNull at hnn
          simp only [Bool.or_eq_false_iff, beq_eq_false_iff_ne, ne_eq] at hnn
          constructor
          · intro h0; exact absurd h0 hnn.1
          · intro h0; exact absurd h0 hnn.2
        obtain ⟨f1, f2, f3, f4, f5, f6, f7, f8⟩ := RepaintImage_fields cfg
          { e with
            OriginalImage := reader.readRGB16 (scaledSize cfg reader.size)
            CurrentImage := reader.readRGB16 (scaledSize cfg reader.size)
            LoadedImage := QImage.null
            UndoStack := []
            IsChanged := true } true QRect.empty
        obtain ⟨d1, d2, d3⟩ := RepaintImage_display cfg
          { e with
            OriginalImage := reader.readRGB16 (scaledSize cfg reader.size)
            CurrentImage := reader.readRGB16 (scaledSize cfg reader.size)
            LoadedImage := QImage.null
            UndoStack := []
            IsChanged := true } QRect.empty hwf
        simp only at f1 f2 f3 f4 f5 f6 f7 f8 d1 d2 d3
        constructor
        · rw [f5, f6]
        · rw [f5, f6]
        · rw [f6]; exact hwf
        · rw [f7]; intro img hm; simp at hm
        · rw [f7]; exact Nat.zero_le _
        · rw [f8]; exact h.table
        · rw [d1, f6]
        · rw [d2, f6]
        · rw [f6]; exact d3
        · rw [f4]; rfl
  · simp only [hc, Bool.false_eq_true, if_false]
    exact h

theorem consistent_saveImage (cfg : Config) (e : RecolorEditor)
    (save : String → QImage → Bool) (image_file : String) (h : Consistent cfg e) :
    Consistent cfg (saveImage save e image_file).editor := by
  unfold saveImage
  split
  · simp only
    split
    · exact { h with }
    · exact h
  · exact h

theorem consistent_undo (cfg : Config) (e : RecolorEditor) (h : Consistent cfg e) :
    Consistent cfg (undo cfg e).1 := by
  unfold undo
  split
  · next hpos =>
    have hne : e.UndoStack ≠ [] := by
      intro h0; rw [h0] at hpos; simp at hpos
    have hlast : e.UndoStack.getLastD QImage.null ∈ e.UndoStack := by
      rw [List.getLastD_eq_getLast?, List.getLast?_eq_getLast _ hne]
      exact List.getLast_mem hne
    obtain ⟨sw, sh⟩ := h.undo_sizes _ hlast
    have hwf : (e.UndoStack.getLastD QImage.null).width = 0 ↔
        (e.UndoStack.getLastD QImage.null).height = 0 := by
      rw [sw, sh]; exact h.current_null
    obtain ⟨f1, f2, f3, f4, f5, f6, f7, f8⟩ := RepaintImage_fields cfg
      { e with
        CurrentImage := e.UndoStack.getLastD QImage.null
        UndoStack := e.UndoStack.dropLast
        IsChanged := true } true QRect.empty
    obtain ⟨d1, d2, d3⟩ := RepaintImage_display cfg
      { e with
        CurrentImage := e.UndoStack.getLastD QImage.null
        UndoStack := e.UndoStack.dropLast
        IsChanged := true } QRect.empty hwf
    simp only at f1 f2 f3 f4 f5 f6 f7 f8 d1 d2 d3 ⊢
    constructor
    · rw [f5, f6, sw]; exact h.original_width
    · rw [f5, f6, sh]; exact h.original_height
    · rw [f6]; exact hwf
    · rw [f7, f6, sw, sh]
      intro img hm
      exact h.undo_sizes img (List.mem_of_mem_dropLast hm)
    · rw [f7]
      have := h.undo_depth
      simp only [List.length_dropLast]
      omega
    · rw [f8]; exact h.table
    · rw [d1, f6]
    · rw [d2, f6]
    · rw [f6]; exact d3
    · rw [f4]; exact h.loaded_null
  · exact h

theorem consistent_changeImageAt (cfg : Config) (e : RecolorEditor) (save_undo : Bool)
    (cx cy radius : Int) (h : Consistent cfg e) :
    Consistent cfg (changeImageAt cfg e save_undo cx cy radius).1 := by
  by_cases hmode : e.CurrentMode = ModeScroll
  · have hid : changeImageAt cfg e save_undo cx cy radius = (e, []) := by
      simp [changeImageAt, hmode]
    rw [hid]; exact h
  · obtain ⟨bw, bh, _⟩ := brush_spec e cx cy radius e.CurrentImage
    have hstack : ∃ stack : List QImage,
        (stack.length ≤ cfg.UNDO_DEPTH ∧
          ∀ img ∈ stack, img ∈ e.UndoStack ∨ img = e.CurrentImage) ∧
        (changeImageAt cfg e save_undo cx cy radius).1 =
          (RepaintImage cfg
            { e with
              UndoStack := stack
              CurrentImage := brush e cx cy radius e.CurrentImage
              IsChanged := true } false
            (QRect.ofSize (cx - radius) (cy - radius) (radius * 2) (radius * 2))).1 := by
      cases save_undo with
      | true =>
        refine ⟨(SaveUndoImage cfg e).1.UndoStack,
          ⟨SaveUndoImage_length_le cfg e h.undo_depth, (SaveUndoImage_fields cfg e).2⟩, ?_⟩
        unfold changeImageAt
        simp only [hmode, ne_eq, not_false_eq_true, if_true]
        rfl
      | false =>
        refine ⟨e.UndoStack, ⟨h.undo_depth, fun img hm => Or.inl hm⟩, ?_⟩
        unfold changeImageAt
        simp only [hmode, ne_eq, not_false_eq_true, if_true]
        rfl
    obtain ⟨stack, ⟨hlen, hmem⟩, heq⟩ := hstack
    rw [heq]
    have hwf : (brush e cx cy radius e.CurrentImage).width = 0 ↔
        (brush e cx cy radius e.CurrentImage).height = 0 := by
      rw [bw, bh]; exact h.current_null
    obtain ⟨f1, f2, f3, f4, f5, f6, f7, f8⟩ := RepaintImage_fields cfg
      { e with
        UndoStack := stack
        CurrentImage := brush e cx cy radius e.CurrentImage
        IsChanged := true } false
      (QRect.ofSize (cx - radius) (cy - radius) (radius * 2) (radius * 2))
    obtain ⟨d1, d2, d3⟩ := RepaintImage_partial_display cfg
      { e with
        UndoStack := stack
        CurrentImage := brush e cx cy radius e.CurrentImage
        IsChanged := true }
      (QRect.ofSize (cx - radius) (cy - radius) (radius * 2) (radius * 2)) hwf
      (by simp only; rw [bw]; exact h.display_width)
      (by simp only; rw [bh]; exact h.display_height)
    simp only at f1 f2 f3 f4 f5 f6 f7 f8 d1 d2 d3
    have hnull : (brush e cx cy radius e.CurrentImage).isNull = e.CurrentImage.isNull := by
      unfold QImage.isNull; rw [bw, bh]
    constructor
    · rw [f5, f6, bw]; exact h.original_width
    · rw [f5, f6, bh]; exact h.original_height
    · rw [f6]; exact hwf
    · rw [f7, f6, bw, bh]
      intro img hm
      rcases hmem img hm with h1 | h1
      · exact h.undo_sizes img h1
      · rw [h1]; exact ⟨rfl, rfl⟩
    · rw [f7]; exact hlen
    · rw [f8]; exact h.table
    · rw [d1, f6]
    · rw [d2, f6]
    · rw [f6]
      intro hn
      rw [d3 hn, bw]
      rw [hnull] at hn
      exact h.display_stride hn
    · rw [f4]; exact h.loaded_null

/-- Every editor reached from the constructor by calls of its member functions
is consistent: the original image, the current image, every undo snapshot and
the display buffer have one size, the history respects `UNDO_DEPTH`, and the
lookup table is the one the constructor built. -/
theorem consistent_runCalls (cfg : Config) (calls : List EditorCall) :
    Consistent cfg (runCalls cfg RecolorEditor.new calls) := by
  have hgen : ∀ (cs : List EditorCall) (e : RecolorEditor), Consistent cfg e →
      Consistent cfg (runCalls cfg e cs) := by
    intro cs
    induction cs with
    | nil => intro e h; exact h
    | cons c rest ih =>
      intro e h
      unfold runCalls
      rw [List.foldl_cons]
      apply ih
      cases c with
      | setMode mode => exact { h with }
      | setHue hue => exact { h with }
      | openImage reader => exact consistent_openImage cfg e reader h
      | saveImage save image_file => exact consistent_saveImage cfg e save image_file h
      | changeImageAt su cx cy r => exact consistent_changeImageAt cfg e su cx cy r h
      | undo => exact consistent_undo cfg e h
  exact hgen calls _ (consistent_new cfg)

end MagicPhotos
